import Mathlib

/-!
Verification development for the sidekick hook scripts of the dotfiles
repository.  The Python sources under src/hooks are shallowly embedded as
executable Lean definitions: machine integers become Int, Python float
scores become Rat, dictionaries become structures or insertion-ordered
association lists, and fallible operations return Except or Option.
Wall-clock times are modelled as integers (seconds).
-/

/-! ## Python-semantics helpers -/

/-- Python list slicing l[-k:]: the last k elements (the whole list when
k exceeds its length). -/
def pyTail (k : Nat) (l : List α) : List α := l.drop (l.length - k)

/-- Python integer modulo: floor-convention remainder, raising
ZeroDivisionError on a zero divisor.  Int.fmod is the floor-convention
remainder, matching the sign behaviour of the Python % operator. -/
def pymod (a b : Int) : Except Unit Int :=
  if b = 0 then .error () else .ok (Int.fmod a b)

theorem length_pyTail (k : Nat) (l : List α) :
    (pyTail k l).length = min k l.length := by
  simp [pyTail]
  omega

theorem pyTail_eq_drop {k m : Nat} {l : List α} (h : l.length = k + m) :
    pyTail k l = l.drop m := by
  unfold pyTail
  congr 1
  omega

theorem fmod_eq_zero_iff_dvd (a b : Int) (hb : b ≠ 0) :
    Int.fmod a b = 0 ↔ b ∣ a := by
  constructor
  · intro h
    refine ⟨Int.fdiv a b, ?_⟩
    have := Int.fmod_add_fdiv a b
    omega
  · rintro ⟨c, rfl⟩
    have h1 := Int.fmod_add_fdiv (b * c) b
    have h2 : Int.fdiv (b * c) b = c := Int.mul_fdiv_cancel_left c hb
    rw [h2] at h1
    omega

theorem fmod_neg_one (a : Int) : Int.fmod a (-1) = 0 := by
  rw [fmod_eq_zero_iff_dvd a (-1) (by decide)]
  exact ⟨-a, by ring⟩

/-! ## TriggerGate: src/hooks/sidekick-counter.py

The persisted per-project state is `state.json` holding the event counter
and the time of the last fired review.  `onEvent` embeds the body of
`main` (lines 63-95): the counter is incremented and saved first, then
`should_launch = (count % INTERVAL == 0) and (now - last_run >= COOLDOWN_S)`
is evaluated; when it holds the worker is spawned and, only if the spawn
succeeds (`worker.exists()` and `Popen` does not raise), `last_run = now`
is stored.  `spawnOk` models whether that spawn attempt succeeds.
A zero INTERVAL makes `count % INTERVAL` raise ZeroDivisionError, which
the hook does not catch; this is the `.error` outcome (the counter update
was already saved at that point). -/

structure CounterState where
  count : Int
  last_run : Int
deriving DecidableEq, Repr

def onEvent (interval cooldown : Int) (spawnOk : Bool) (now : Int)
    (s : CounterState) : CounterState × Except Unit Bool :=
  let c := s.count + 1
  match pymod c interval with
  | .error _ => (⟨c, s.last_run⟩, .error ())
  | .ok r =>
    let fired : Bool := (r == 0) && decide (cooldown ≤ now - s.last_run)
    if fired && spawnOk then (⟨c, now⟩, .ok fired)
    else (⟨c, s.last_run⟩, .ok fired)

/-- Feeding a list of (time, spawn succeeds) events through the hook. -/
def runEvents (interval cooldown : Int) (events : List (Int × Bool))
    (s : CounterState) : CounterState × List (Except Unit Bool) :=
  match events with
  | [] => (s, [])
  | (now, ok) :: rest =>
    let step := onEvent interval cooldown ok now s
    let tail := runEvents interval cooldown rest step.1
    (tail.1, step.2 :: tail.2)

theorem onEvent_eq (interval cooldown : Int) (spawnOk : Bool) (now : Int)
    (s : CounterState) (h : interval ≠ 0) :
    onEvent interval cooldown spawnOk now s =
      (if (Int.fmod (s.count + 1) interval == 0
            && decide (cooldown ≤ now - s.last_run)) && spawnOk
        then ⟨s.count + 1, now⟩ else ⟨s.count + 1, s.last_run⟩,
       .ok (Int.fmod (s.count + 1) interval == 0
            && decide (cooldown ≤ now - s.last_run))) := by
  simp only [onEvent, pymod, if_neg h]
  split <;> simp_all

theorem onEvent_fire (interval cooldown : Int) (now : Int)
    (s : CounterState) (h : interval ≠ 0)
    (hd : Int.fmod (s.count + 1) interval = 0)
    (hc : cooldown ≤ now - s.last_run) :
    onEvent interval cooldown true now s = (⟨s.count + 1, now⟩, .ok true) := by
  rw [onEvent_eq _ _ _ _ _ h, hd]
  simp [hc]

theorem onEvent_cold (interval cooldown : Int) (spawnOk : Bool) (now : Int)
    (s : CounterState) (h : interval ≠ 0)
    (hc : now - s.last_run < cooldown) :
    onEvent interval cooldown spawnOk now s =
      (⟨s.count + 1, s.last_run⟩, .ok false) := by
  rw [onEvent_eq _ _ _ _ _ h]
  have : ¬ (cooldown ≤ now - s.last_run) := by omega
  simp [this]

theorem runEvents_append (i cd : Int) (l1 l2 : List (Int × Bool))
    (s : CounterState) :
    runEvents i cd (l1 ++ l2) s =
      ((runEvents i cd l2 (runEvents i cd l1 s).1).1,
       (runEvents i cd l1 s).2 ++ (runEvents i cd l2 (runEvents i cd l1 s).1).2) := by
  induction l1 generalizing s with
  | nil => simp [runEvents]
  | cons e rest ih => cases e; simp [runEvents, ih]

/-- C3: TriggerGate increments the persisted counter by one per event and
fires exactly when the incremented counter is divisible by the interval
and the elapsed time since last_run is at least the cooldown; with
interval = 10 and cooldown = 120 s, ten events from fresh state fire
exactly once, on the tenth, and ten further events within the cooldown
window of that fire never fire even though the counter reaches 20. -/
theorem triggerGate_fire_rule_and_scenario :
    (∀ (interval cooldown now : Int) (spawnOk : Bool) (s : CounterState),
      interval ≠ 0 →
        (onEvent interval cooldown spawnOk now s).1.count = s.count + 1 ∧
        ((onEvent interval cooldown spawnOk now s).2 = .ok true ↔
          (Int.fmod (s.count + 1) interval = 0 ∧ cooldown ≤ now - s.last_run))) ∧
    (∀ t1 t2 t3 t4 t5 t6 t7 t8 t9 t10 : Int, 120 ≤ t10 →
      runEvents 10 120
        [(t1, true), (t2, true), (t3, true), (t4, true), (t5, true),
         (t6, true), (t7, true), (t8, true), (t9, true), (t10, true)]
        ⟨0, 0⟩ =
        (⟨10, t10⟩,
         [.ok false, .ok false, .ok false, .ok false, .ok false,
          .ok false, .ok false, .ok false, .ok false, .ok true])) ∧
    (∀ t10 u1 u2 u3 u4 u5 u6 u7 u8 u9 u10 : Int, u10 - t10 < 120 →
      runEvents 10 120
        [(u1, true), (u2, true), (u3, true), (u4, true), (u5, true),
         (u6, true), (u7, true), (u8, true), (u9, true), (u10, true)]
        ⟨10, t10⟩ =
        (⟨20, t10⟩,
         [.ok false, .ok false, .ok false, .ok false, .ok false,
          .ok false, .ok false, .ok false, .ok false, .ok false])) := by
  refine ⟨?_, ?_, ?_⟩
  · intro interval cooldown now spawnOk s h
    rw [onEvent_eq _ _ _ _ _ h]
    constructor
    · split <;> rfl
    · simp
  · intro t1 t2 t3 t4 t5 t6 t7 t8 t9 t10 h
    have h9 : runEvents 10 120
        [(t1, true), (t2, true), (t3, true), (t4, true), (t5, true),
         (t6, true), (t7, true), (t8, true), (t9, true)] ⟨0, 0⟩ =
        (⟨9, 0⟩,
         [.ok false, .ok false, .ok false, .ok false, .ok false,
          .ok false, .ok false, .ok false, .ok false]) := rfl
    have hfire : onEvent 10 120 true t10 (⟨9, 0⟩ : CounterState) =
        (⟨10, t10⟩, .ok true) := by
      refine onEvent_fire 10 120 t10 ⟨9, 0⟩ (by decide) (by decide) ?_
      show (120 : Int) ≤ t10 - 0
      omega
    have hsplit :
        ([(t1, true), (t2, true), (t3, true), (t4, true), (t5, true),
          (t6, true), (t7, true), (t8, true), (t9, true), (t10, true)] :
          List (Int × Bool)) =
        [(t1, true), (t2, true), (t3, true), (t4, true), (t5, true),
         (t6, true), (t7, true), (t8, true), (t9, true)] ++ [(t10, true)] := rfl
    rw [hsplit, runEvents_append, h9]
    simp [runEvents, hfire]
  · intro t10 u1 u2 u3 u4 u5 u6 u7 u8 u9 u10 h
    have h9 : runEvents 10 120
        [(u1, true), (u2, true), (u3, true), (u4, true), (u5, true),
         (u6, true), (u7, true), (u8, true), (u9, true)] ⟨10, t10⟩ =
        (⟨19, t10⟩,
         [.ok false, .ok false, .ok false, .ok false, .ok false,
          .ok false, .ok false, .ok false, .ok false]) := rfl
    have hcold : onEvent 10 120 true u10 (⟨19, t10⟩ : CounterState) =
        (⟨20, t10⟩, .ok false) := by
      refine onEvent_cold 10 120 true u10 ⟨19, t10⟩ (by decide) ?_
      show u10 - t10 < (120 : Int)
      omega
    have hsplit :
        ([(u1, true), (u2, true), (u3, true), (u4, true), (u5, true),
          (u6, true), (u7, true), (u8, true), (u9, true), (u10, true)] :
          List (Int × Bool)) =
        [(u1, true), (u2, true), (u3, true), (u4, true), (u5, true),
         (u6, true), (u7, true), (u8, true), (u9, true)] ++ [(u10, true)] := rfl
    rw [hsplit, runEvents_append, h9]
    simp [runEvents, hcold]

theorem triggerGate_fire_rule_and_scenario_witness :
    ((onEvent 10 120 true 1000 (⟨0, 0⟩ : CounterState)).1.count = 0 + 1 ∧
      ((onEvent 10 120 true 1000 (⟨0, 0⟩ : CounterState)).2 = .ok true ↔
        (Int.fmod ((0 : Int) + 1) 10 = 0 ∧ (120 : Int) ≤ 1000 - 0))) ∧
    runEvents 10 120
      [(1000, true), (1000, true), (1000, true), (1000, true), (1000, true),
       (1000, true), (1000, true), (1000, true), (1000, true), (1000, true)]
      ⟨0, 0⟩ =
      (⟨10, 1000⟩,
       [.ok false, .ok false, .ok false, .ok false, .ok false,
        .ok false, .ok false, .ok false, .ok false, .ok true]) ∧
    runEvents 10 120
      [(1010, true), (1010, true), (1010, true), (1010, true), (1010, true),
       (1010, true), (1010, true), (1010, true), (1010, true), (1010, true)]
      ⟨10, 1000⟩ =
      (⟨20, 1000⟩,
       [.ok false, .ok false, .ok false, .ok false, .ok false,
        .ok false, .ok false, .ok false, .ok false, .ok false]) :=
  ⟨triggerGate_fire_rule_and_scenario.1 10 120 1000 true ⟨0, 0⟩ (by decide),
   triggerGate_fire_rule_and_scenario.2.1 1000 1000 1000 1000 1000 1000 1000
     1000 1000 1000 (by decide),
   triggerGate_fire_rule_and_scenario.2.2 1000 1010 1010 1010 1010 1010 1010
     1010 1010 1010 1010 (by decide)⟩

set_option maxRecDepth 4000 in
/-- C8 counterexample: from fresh state, event 10 at time 1000 fires but the
spawn fails, so last_run stays 0; event 20 at time 1010 — only ten seconds
later, well inside the 120 s cooldown window — fires again.  This refutes
the claim that lastFireTime is recorded before spawning so that a failed
spawn cannot lead to another fire within the cooldown window. -/
theorem failed_spawn_refires_within_cooldown :
    runEvents 10 120
      (List.replicate 9 ((1000 : Int), true) ++ [((1000 : Int), false)] ++
       List.replicate 9 ((1010 : Int), true) ++ [((1010 : Int), true)])
      ⟨0, 0⟩ =
      (⟨20, 1010⟩,
       List.replicate 9 (Except.ok false) ++ [Except.ok true] ++
       List.replicate 9 (Except.ok false) ++ [Except.ok true]) ∧
    (1010 : Int) - 1000 < 120 := ⟨rfl, by decide⟩

/-- C8 amended: last_run is recorded as now only when the spawn attempt
succeeds (the assignment happens after Popen, not before); once recorded,
no event within the cooldown window can fire again, but a fire whose spawn
fails leaves last_run unchanged. -/
theorem lastRun_update_spawn_semantics :
    (∀ (interval cooldown now : Int) (s : CounterState), interval ≠ 0 →
      Int.fmod (s.count + 1) interval = 0 → cooldown ≤ now - s.last_run →
      (onEvent interval cooldown true now s).1.last_run = now) ∧
    (∀ (interval cooldown now : Int) (s : CounterState), interval ≠ 0 →
      (onEvent interval cooldown false now s).1.last_run = s.last_run) ∧
    (∀ (interval cooldown now : Int) (spawnOk : Bool) (s : CounterState),
      interval ≠ 0 → (onEvent interval cooldown spawnOk now s).2 ≠ .ok true →
      (onEvent interval cooldown spawnOk now s).1.last_run = s.last_run) ∧
    (∀ (interval cooldown now now2 : Int) (spawnOk2 : Bool)
        (s2 : CounterState), interval ≠ 0 → s2.last_run = now →
      now2 - now < cooldown →
      (onEvent interval cooldown spawnOk2 now2 s2).2 ≠ .ok true) := by
  refine ⟨?_, ?_, ?_, ?_⟩
  · intro interval cooldown now s h hd hc
    rw [onEvent_fire interval cooldown now s h hd hc]
  · intro interval cooldown now s h
    rw [onEvent_eq _ _ _ _ _ h]
    simp
  · intro interval cooldown now spawnOk s h hne
    rw [onEvent_eq _ _ _ _ _ h] at hne ⊢
    by_cases hf : (Int.fmod (s.count + 1) interval == 0
        && decide (cooldown ≤ now - s.last_run)) = true
    · exact (hne (by rw [hf])).elim
    · simp only [Bool.not_eq_true] at hf
      simp [hf]
  · intro interval cooldown now now2 spawnOk2 s2 h hlr hc
    have : now2 - s2.last_run < cooldown := by omega
    rw [onEvent_cold interval cooldown spawnOk2 now2 s2 h this]
    simp

theorem lastRun_update_spawn_semantics_witness :
    ((onEvent 10 120 true 1000 (⟨9, 0⟩ : CounterState)).1.last_run = 1000) ∧
    ((onEvent 10 120 false 1000 (⟨9, 0⟩ : CounterState)).1.last_run = 0) ∧
    ((onEvent 10 120 true 1010 (⟨19, 1000⟩ : CounterState)).2 ≠ .ok true) :=
  ⟨lastRun_update_spawn_semantics.1 10 120 1000 ⟨9, 0⟩ (by decide) (by decide)
     (by decide),
   lastRun_update_spawn_semantics.2.1 10 120 1000 ⟨9, 0⟩ (by decide),
   lastRun_update_spawn_semantics.2.2.2 10 120 1000 1010 true ⟨19, 1000⟩
     (by decide) rfl (by decide)⟩

/-- C9 counterexample: with interval = 0 the hook raises ZeroDivisionError
instead of completing (the counter update is still persisted), and with
interval = -2 the first event does not fire, so a non-positive interval
does not degrade to firing on every event. -/
theorem interval_zero_raises :
    onEvent 0 120 true 1000 (⟨0, 0⟩ : CounterState) = (⟨1, 0⟩, .error ()) ∧
    onEvent (-2) 120 true 1000 (⟨0, 0⟩ : CounterState) = (⟨1, 0⟩, .ok false) :=
  ⟨rfl, rfl⟩

/-- C9 amended: interval = 0 makes the modulo check raise ZeroDivisionError
after the counter has been incremented and persisted; a negative interval
completes without error and fires exactly when the interval divides the
incremented counter and the cooldown has elapsed, which degrades to firing
on every cooldown-eligible event only for interval = -1. -/
theorem nonpositive_interval_behavior :
    (∀ (cooldown now : Int) (spawnOk : Bool) (s : CounterState),
      onEvent 0 cooldown spawnOk now s = (⟨s.count + 1, s.last_run⟩, .error ())) ∧
    (∀ (interval cooldown now : Int) (spawnOk : Bool) (s : CounterState),
      interval < 0 →
      (onEvent interval cooldown spawnOk now s).2 =
        .ok ((Int.fmod (s.count + 1) interval == 0)
          && decide (cooldown ≤ now - s.last_run))) ∧
    (∀ (cooldown now : Int) (spawnOk : Bool) (s : CounterState),
      (onEvent (-1) cooldown spawnOk now s).2 =
        .ok (decide (cooldown ≤ now - s.last_run))) := by
  refine ⟨?_, ?_, ?_⟩
  · intro cooldown now spawnOk s
    simp [onEvent, pymod]
  · intro interval cooldown now spawnOk s h
    rw [onEvent_eq _ _ _ _ _ (by omega)]
  · intro cooldown now spawnOk s
    rw [onEvent_eq _ _ _ _ _ (by decide)]
    simp [fmod_neg_one]

theorem nonpositive_interval_behavior_witness :
    onEvent 0 120 true 1000 (⟨0, 0⟩ : CounterState) = (⟨0 + 1, 0⟩, .error ()) ∧
    ((onEvent (-2) 120 true 1000 (⟨0, 0⟩ : CounterState)).2 =
      .ok ((Int.fmod ((0 : Int) + 1) (-2) == 0)
        && decide ((120 : Int) ≤ 1000 - 0))) :=
  ⟨nonpositive_interval_behavior.1 120 1000 true ⟨0, 0⟩,
   nonpositive_interval_behavior.2.1 (-2) 120 1000 true ⟨0, 0⟩ (by decide)⟩

/-! ## NudgeDelivery: src/hooks/sidekick-nudge.py

`deliver` embeds `main` (lines 37-70) acting on the per-project
`pending_feedback.json`.  The file is either absent, present but not
parseable as JSON (the hook exits without touching it), or a parsed
record.  `created_at` is the parse result of the ISO timestamp: `none`
models an unparseable value, which the code replaces with the current
time (age 0).  A stale record is deleted unread; a fresh one is printed
and deleted only when its stripped body is non-empty, otherwise the hook
falls through to exit(0) leaving the file in place. -/

/-- Python str whitespace characters used by strip(). -/
def pyIsSpace (c : Char) : Bool :=
  c == ' ' || c == '\t' || c == '\n' || c == '\r' || c == '\x0b' || c == '\x0c'

/-- Python str.strip(): remove leading and trailing whitespace. -/
def pyStrip (s : String) : String :=
  ⟨((s.data.dropWhile pyIsSpace).reverse.dropWhile pyIsSpace).reverse⟩

structure PendingRecord where
  created_at : Option Int
  ttl_seconds : Int
  nudge_markdown : String
  reason : String
deriving DecidableEq, Repr

inductive PendingFile where
  | absent
  | unparseable
  | record (r : PendingRecord)
deriving DecidableEq, Repr

/-- One invocation of the PreToolUse delivery hook: returns the displayed
(nudge, reason) if any, together with the resulting state of the pending
file. -/
def deliver (now : Int) (f : PendingFile) :
    Option (String × String) × PendingFile :=
  match f with
  | .absent => (none, .absent)
  | .unparseable => (none, .unparseable)
  | .record d =>
    let created := d.created_at.getD now
    let age := now - created
    if d.ttl_seconds < age then (none, .absent)
    else
      let nudge := pyStrip d.nudge_markdown
      if nudge = "" then (none, .record d)
      else (some (nudge, d.reason), .absent)

/-- C2 counterexample: a pending record that is perfectly fresh (age 0,
TTL 600) but whose body is empty is not deleted by a call to the delivery
hook — the same record is still on disk and a second call reads it again.
This refutes the claim that a single call deletes the record regardless
of its freshness or content. -/
theorem nudgeDelivery_keeps_fresh_empty_record :
    deliver 1000 (.record ⟨some 1000, 600, "", "why"⟩) =
      (none, .record ⟨some 1000, 600, "", "why"⟩) ∧
    deliver 1000 (deliver 1000 (.record ⟨some 1000, 600, "", "why"⟩)).2 =
      (none, .record ⟨some 1000, 600, "", "why"⟩) ∧
    (1000 : Int) - 1000 ≤ 600 := ⟨rfl, rfl, by decide⟩

/-- C2 amended: a call deletes the pending record iff it is stale or its
stripped body is non-empty; for a fresh record with non-empty body the
first call returns the body and deletes the record so a second call
immediately afterwards returns nothing, but a fresh record with empty
stripped body is left in place unconsumed. -/
theorem nudgeDelivery_consumption_conditions :
    (∀ (now : Int) (d : PendingRecord),
      d.ttl_seconds < now - d.created_at.getD now →
      deliver now (.record d) = (none, .absent)) ∧
    (∀ (now : Int) (d : PendingRecord),
      now - d.created_at.getD now ≤ d.ttl_seconds →
      pyStrip d.nudge_markdown ≠ "" →
      deliver now (.record d) =
        (some (pyStrip d.nudge_markdown, d.reason), .absent)) ∧
    (∀ (now now2 : Int) (d : PendingRecord),
      now - d.created_at.getD now ≤ d.ttl_seconds →
      pyStrip d.nudge_markdown ≠ "" →
      deliver now2 (deliver now (.record d)).2 = (none, .absent)) ∧
    (∀ (now : Int) (d : PendingRecord),
      now - d.created_at.getD now ≤ d.ttl_seconds →
      pyStrip d.nudge_markdown = "" →
      deliver now (.record d) = (none, .record d)) := by
  refine ⟨?_, ?_, ?_, ?_⟩
  · intro now d h
    simp [deliver, h]
  · intro now d h hn
    simp [deliver, not_lt.mpr h, hn]
  · intro now now2 d h hn
    simp [deliver, not_lt.mpr h, hn]
  · intro now d h hn
    simp [deliver, not_lt.mpr h, hn]

theorem nudgeDelivery_consumption_conditions_witness :
    deliver 1000 (.record ⟨some 0, 600, "hi", "r"⟩) = (none, .absent) ∧
    deliver 1000 (.record ⟨some 1000, 600, " hi ", "r"⟩) =
      (some (pyStrip " hi ", "r"), .absent) ∧
    deliver 1001 (deliver 1000 (.record ⟨some 1000, 600, " hi ", "r"⟩)).2 =
      (none, .absent) ∧
    deliver 1000 (.record ⟨some 1000, 600, "  ", "r"⟩) =
      (none, .record ⟨some 1000, 600, "  ", "r"⟩) :=
  ⟨nudgeDelivery_consumption_conditions.1 1000 ⟨some 0, 600, "hi", "r"⟩
     (by decide),
   nudgeDelivery_consumption_conditions.2.1 1000 ⟨some 1000, 600, " hi ", "r"⟩
     (by decide) (by decide),
   nudgeDelivery_consumption_conditions.2.2.1 1000 1001
     ⟨some 1000, 600, " hi ", "r"⟩ (by decide) (by decide),
   nudgeDelivery_consumption_conditions.2.2.2 1000 ⟨some 1000, 600, "  ", "r"⟩
     (by decide) (by decide)⟩

/-! ## NudgeGate: src/hooks/sidekick-review-worker.py lines 280-312
and src/hooks/sidekick-memory-advanced.py lines 707-718

The review worker parses the verdict, strips the nudge body, hashes it
(SHA-256 is kept abstract as a parameter `hash`, since only equality of
hashes matters to the gate), folds `memory_update` into the long-term
summary, advances the watermark, and writes `pending_feedback.json` only
when `should and score >= THRESHOLD and nudge and
nudge_hash != memory["last_nudge_hash"]`, updating the stored hash on
emission.  The advanced memory worker writes its pending record whenever
`result.get("should_intervene") and result.get("score", 0) >= THRESHOLD`
(with THRESHOLD = 0 in that file), with no body or hash condition and no
last_nudge_hash bookkeeping. -/

structure Verdict where
  should_intervene : Bool
  score : Rat
  reason : String
  nudge_markdown : String
  commands : List String
  memory_update : String
deriving DecidableEq, Repr

structure WorkerMemory where
  last_timestamp : Option String
  long_term_summary : String
  last_nudge_hash : String
deriving DecidableEq, Repr

structure PendingPayload where
  created_at : String
  ttl_seconds : Int
  nudge_markdown : String
  commands : List String
  score : Rat
  reason : String
deriving DecidableEq, Repr

/-- Line 287: `hashlib.sha256(nudge...).hexdigest() if nudge else ""`. -/
def nudgeHashOf (hash : String → String) (out : Verdict) : String :=
  if pyStrip out.nudge_markdown ≠ "" then hash (pyStrip out.nudge_markdown)
  else ""

/-- Lines 290-293: fold a non-empty memory_update into the long-term
summary, capped at 4000 characters. -/
def mergedSummary (memory : WorkerMemory) (out : Verdict) : String :=
  if pyStrip out.memory_update ≠ "" then
    (pyStrip (memory.long_term_summary ++ "\n" ++ pyStrip out.memory_update)).take 4000
  else memory.long_term_summary

/-- Line 296: `msgs[-1].get("timestamp") or memory.get("last_timestamp")`. -/
def advancedWatermark (memory : WorkerMemory) (lastMsgTs : String) :
    Option String :=
  if lastMsgTs ≠ "" then some lastMsgTs else memory.last_timestamp

/-- Review worker, lines 280-312: verdict handling, memory update and the
nudge gate.  `lastMsgTs` is the timestamp of the last message of the pass
(the code reaches this point only when `msgs` is non-empty). -/
def reviewGatePass (hash : String → String) (threshold : Rat) (ttl : Int)
    (nowIso : String) (out : Verdict) (memory : WorkerMemory)
    (lastMsgTs : String) : WorkerMemory × Option PendingPayload :=
  if out.should_intervene = true ∧ threshold ≤ out.score ∧
      pyStrip out.nudge_markdown ≠ "" ∧
      nudgeHashOf hash out ≠ memory.last_nudge_hash then
    (⟨advancedWatermark memory lastMsgTs, mergedSummary memory out,
        nudgeHashOf hash out⟩,
     some ⟨nowIso, ttl, pyStrip out.nudge_markdown, out.commands, out.score,
        out.reason⟩)
  else
    (⟨advancedWatermark memory lastMsgTs, mergedSummary memory out,
        memory.last_nudge_hash⟩, none)

structure AdvPending where
  created_at : String
  ttl_seconds : Int
  nudge_markdown : String
  commands : List String
  score : Rat
  reason : String
deriving DecidableEq, Repr

/-- Advanced memory worker, lines 707-718: the pending record is written
whenever the verdict intervenes with score at least the threshold, which
is the constant 0 in that file; the body may be empty and no hash
de-duplication is performed. -/
def advancedNudgeGate (nowIso : String) (out : Verdict) : Option AdvPending :=
  if out.should_intervene = true ∧ (0 : Rat) ≤ out.score then
    some ⟨nowIso, 900, out.nudge_markdown, out.commands, out.score, out.reason⟩
  else none

theorem gateCond_iff (hash : String → String) (threshold : Rat)
    (out : Verdict) (m : WorkerMemory) :
    (out.should_intervene = true ∧ threshold ≤ out.score ∧
      pyStrip out.nudge_markdown ≠ "" ∧
      nudgeHashOf hash out ≠ m.last_nudge_hash) ↔
    (out.should_intervene = true ∧ threshold ≤ out.score ∧
      pyStrip out.nudge_markdown ≠ "" ∧
      hash (pyStrip out.nudge_markdown) ≠ m.last_nudge_hash) := by
  unfold nudgeHashOf
  by_cases hn : pyStrip out.nudge_markdown = "" <;> simp [hn]

/-- C1 counterexample: the advanced memory worker's gate writes a pending
record for a verdict whose nudge body is empty, and writes again for a
byte-identical verdict on the very next pass (its memory carries no
last_nudge_hash), so the emission condition claimed for NudgeGate does not
hold for this gate, and two consecutive records with identical body hash
are possible. -/
theorem advancedGate_emits_empty_body :
    advancedNudgeGate "T1" ⟨true, 1/2, "r", "", [], ""⟩ =
      some ⟨"T1", 900, "", [], 1/2, "r"⟩ ∧
    advancedNudgeGate "T2" ⟨true, 1/2, "r", "dup", [], ""⟩ =
      some ⟨"T2", 900, "dup", [], 1/2, "r"⟩ ∧
    advancedNudgeGate "T3" ⟨true, 1/2, "r", "dup", [], ""⟩ =
      some ⟨"T3", 900, "dup", [], 1/2, "r"⟩ := by
  refine ⟨?_, ?_, ?_⟩ <;> · simp [advancedNudgeGate]

/-- C1 amended: the review worker's NudgeGate emits iff should_intervene
is set, the score reaches the threshold, the stripped body is non-empty
and its hash differs from the stored last_nudge_hash; on emission the
stored hash becomes the emitted body's hash, so it never emits twice in a
row with the same body hash.  The advanced memory worker's gate instead
emits iff should_intervene is set and the score is at least 0, with no
body or hash condition. -/
theorem nudgeGate_emission_conditions :
    (∀ (hash : String → String) (threshold : Rat) (ttl : Int)
        (nowIso : String) (out : Verdict) (memory : WorkerMemory)
        (lastMsgTs : String),
      (reviewGatePass hash threshold ttl nowIso out memory lastMsgTs).2.isSome ↔
        (out.should_intervene = true ∧ threshold ≤ out.score ∧
         pyStrip out.nudge_markdown ≠ "" ∧
         hash (pyStrip out.nudge_markdown) ≠ memory.last_nudge_hash)) ∧
    (∀ (hash : String → String) (threshold : Rat) (ttl : Int)
        (nowIso : String) (out : Verdict) (memory : WorkerMemory)
        (lastMsgTs : String) (p : PendingPayload),
      (reviewGatePass hash threshold ttl nowIso out memory lastMsgTs).2 = some p →
      (reviewGatePass hash threshold ttl nowIso out memory lastMsgTs).1.last_nudge_hash =
        hash p.nudge_markdown) ∧
    (∀ (hash : String → String) (threshold : Rat) (ttl1 ttl2 : Int)
        (now1 now2 : String) (out1 out2 : Verdict) (memory : WorkerMemory)
        (ts1 ts2 : String) (p : PendingPayload),
      (reviewGatePass hash threshold ttl1 now1 out1 memory ts1).2 = some p →
      hash (pyStrip out2.nudge_markdown) = hash p.nudge_markdown →
      (reviewGatePass hash threshold ttl2 now2 out2
        (reviewGatePass hash threshold ttl1 now1 out1 memory ts1).1 ts2).2 =
        none) ∧
    (∀ (nowIso : String) (out : Verdict),
      (advancedNudgeGate nowIso out).isSome ↔
        (out.should_intervene = true ∧ (0 : Rat) ≤ out.score)) := by
  have hsome : ∀ (hash : String → String) (threshold : Rat) (ttl : Int)
      (nowIso : String) (out : Verdict) (memory : WorkerMemory)
      (lastMsgTs : String) (p : PendingPayload),
      (reviewGatePass hash threshold ttl nowIso out memory lastMsgTs).2 = some p →
      p = ⟨nowIso, ttl, pyStrip out.nudge_markdown, out.commands, out.score,
            out.reason⟩ ∧
      pyStrip out.nudge_markdown ≠ "" ∧
      (reviewGatePass hash threshold ttl nowIso out memory lastMsgTs).1.last_nudge_hash =
        hash (pyStrip out.nudge_markdown) := by
    intro hash threshold ttl nowIso out memory lastMsgTs p hp
    unfold reviewGatePass at hp ⊢
    by_cases hc : out.should_intervene = true ∧ threshold ≤ out.score ∧
        pyStrip out.nudge_markdown ≠ "" ∧
        nudgeHashOf hash out ≠ memory.last_nudge_hash
    · rw [if_pos hc] at hp ⊢
      simp only [Option.some.injEq] at hp
      refine ⟨hp.symm, hc.2.2.1, ?_⟩
      show nudgeHashOf hash out = _
      unfold nudgeHashOf
      rw [if_pos hc.2.2.1]
    · rw [if_neg hc] at hp
      simp at hp
  refine ⟨?_, ?_, ?_, ?_⟩
  · intro hash threshold ttl nowIso out memory lastMsgTs
    unfold reviewGatePass
    by_cases hc : out.should_intervene = true ∧ threshold ≤ out.score ∧
        pyStrip out.nudge_markdown ≠ "" ∧
        nudgeHashOf hash out ≠ memory.last_nudge_hash
    · rw [if_pos hc]
      simpa using (gateCond_iff hash threshold out memory).mp hc
    · rw [if_neg hc]
      simp only [Option.isSome_none, Bool.false_eq_true, false_iff]
      rw [← gateCond_iff hash threshold out memory]
      exact hc
  · intro hash threshold ttl nowIso out memory lastMsgTs p hp
    obtain ⟨rfl, hn, hh⟩ := hsome hash threshold ttl nowIso out memory lastMsgTs p hp
    exact hh
  · intro hash threshold ttl1 ttl2 now1 now2 out1 out2 memory ts1 ts2 p hp hh
    obtain ⟨rfl, hn1, hh1⟩ :=
      hsome hash threshold ttl1 now1 out1 memory ts1 p hp
    set mem2 := (reviewGatePass hash threshold ttl1 now1 out1 memory ts1).1 with hm2
    unfold reviewGatePass
    by_cases hc2 : out2.should_intervene = true ∧ threshold ≤ out2.score ∧
        pyStrip out2.nudge_markdown ≠ "" ∧
        nudgeHashOf hash out2 ≠ mem2.last_nudge_hash
    · exfalso
      apply hc2.2.2.2
      have : nudgeHashOf hash out2 = hash (pyStrip out2.nudge_markdown) := by
        unfold nudgeHashOf
        rw [if_pos hc2.2.2.1]
      rw [this, hh]
      exact hh1.symm
    · rw [if_neg hc2]
  · intro nowIso out
    unfold advancedNudgeGate
    split <;> simp_all

theorem nudgeGate_emission_conditions_witness :
    ((reviewGatePass (fun s => s) 0 900 "T" ⟨true, 1, "r", "go", [], ""⟩
        ⟨none, "", ""⟩ "ts").2.isSome ↔
      ((true : Bool) = true ∧ (0 : Rat) ≤ 1 ∧ pyStrip "go" ≠ "" ∧
       (fun (s : String) => s) (pyStrip "go") ≠ "")) ∧
    (reviewGatePass (fun s => s) 0 900 "T2" ⟨true, 1, "r", "go", [], ""⟩
        (reviewGatePass (fun s => s) 0 900 "T" ⟨true, 1, "r", "go", [], ""⟩
          ⟨none, "", ""⟩ "ts").1 "ts2").2 = none ∧
    ((advancedNudgeGate "T" ⟨true, 1, "r", "", [], ""⟩).isSome ↔
      ((true : Bool) = true ∧ (0 : Rat) ≤ 1)) :=
  ⟨nudgeGate_emission_conditions.1 (fun s => s) 0 900 "T"
     ⟨true, 1, "r", "go", [], ""⟩ ⟨none, "", ""⟩ "ts",
   nudgeGate_emission_conditions.2.2.1 (fun s => s) 0 900 900 "T" "T2"
     ⟨true, 1, "r", "go", [], ""⟩ ⟨true, 1, "r", "go", [], ""⟩
     ⟨none, "", ""⟩ "ts" "ts2" ⟨"T", 900, pyStrip "go", [], 1, "r"⟩
     rfl rfl,
   nudgeGate_emission_conditions.2.2.2 "T" ⟨true, 1, "r", "", [], ""⟩⟩

/-! ## TranscriptCursor: src/hooks/sidekick-review-worker.py lines 65-108

A transcript is a list of JSONL lines; a line either fails json.loads
(`malformed`) or yields an entry with optional timestamp, type and
message fields.  The watermark filter
`if last_ts and ts and ts <= last_ts: continue` and the flattening of
structured content into a text block are embedded below.  The same
watermark filter appears verbatim in sidekick-memory-advanced.py lines
288-290 and sidekick-review-worker-enhanced.py lines 101-103. -/

/-- Python str.splitlines restricted to the newline character, which is
the only line separator occurring in this subsystem.  The accumulator
holds the current line reversed. -/
def splitNLAux : List Char → List Char → List (List Char)
  | [], acc => if acc.isEmpty then [] else [acc.reverse]
  | c :: rest, acc =>
    if c = '\n' then acc.reverse :: splitNLAux rest []
    else splitNLAux rest (c :: acc)

def pysplitlines (s : String) : List String :=
  (splitNLAux s.data []).map (fun cs => ⟨cs⟩)

/-- Python str.join. -/
def pyJoin (sep : String) : List String → String
  | [] => ""
  | [x] => x
  | x :: xs => x ++ sep ++ pyJoin sep xs

/-- JSON string escaping for the characters appearing in this model
(json.dumps with ensure_ascii=False). -/
def jsonEscapeChar (c : Char) : List Char :=
  if c = '"' then ['\\', '"']
  else if c = '\\' then ['\\', '\\']
  else if c = '\n' then ['\\', 'n']
  else if c = '\t' then ['\\', 't']
  else if c = '\r' then ['\\', 'r']
  else [c]

def jsonStr (s : String) : String :=
  ⟨'"' :: (s.data.flatMap jsonEscapeChar ++ ['"'])⟩

/-- Line 95: the keys kept from a tool_use input, in tuple order. -/
def snipKeys : List String := ["command", "file_path", "paths", "query"]

/-- Line 95: `json.dumps(\x7bk: inp.get(k) for k in (...) if k in inp\x7d)`
with input values modelled as strings. -/
def toolUseSnip (input : List (String × String)) : String :=
  let sel := snipKeys.filterMap
    (fun k => (input.find? (fun p => p.1 == k)).map (fun p => (k, p.2)))
  "\x7b" ++ pyJoin ", " (sel.map (fun p => jsonStr p.1 ++ ": " ++ jsonStr p.2))
    ++ "\x7d"

inductive Segment where
  | text (s : String)
  | toolUse (name : String) (input : List (String × String))
  | toolResult (output : String)
  | other
deriving DecidableEq, Repr

inductive MsgContent where
  | str (s : String)
  | segs (l : List Segment)
  | other
deriving DecidableEq, Repr

structure TMessage where
  role : Option String
  content : MsgContent
deriving DecidableEq, Repr

structure Entry where
  timestamp : Option String
  etype : Option String
  message : Option TMessage
deriving DecidableEq, Repr

inductive Line where
  | malformed
  | entry (e : Entry)
deriving DecidableEq, Repr

structure Msg where
  role : String
  text : String
  timestamp : String
  tools : List String
deriving DecidableEq, Repr

/-- Lines 83-104: flatten structured content into text parts and the list
of tool names, in segment order. -/
def flattenSegs : List Segment → List String × List String
  | [] => ([], [])
  | s :: rest =>
    let (ts, tl) := flattenSegs rest
    match s with
    | .text t => (t :: ts, tl)
    | .toolUse n inp =>
      (("[TOOL USE " ++ n ++ "] " ++ toolUseSnip inp) :: ts, n :: tl)
    | .toolResult out =>
      (("[TOOL RESULT] " ++ pyJoin "\n" ((pysplitlines out).take 40)) :: ts, tl)
    | .other => (ts, tl)

/-- Lines 78-107: turn one parsed entry into a message, or nothing when
the type is not user/assistant/system, the message field is absent, or
the flattened stripped text is empty. -/
def entryMessage (e : Entry) : Option Msg :=
  if e.etype = some "user" ∨ e.etype = some "assistant" ∨
      e.etype = some "system" then
    match e.message with
    | none => none
    | some msg =>
      let role := msg.role.getD (e.etype.getD "")
      let pair :=
        match msg.content with
        | .str s => ([s], ([] : List String))
        | .segs l => flattenSegs l
        | .other => ([], [])
      let text := pyStrip (pyJoin "\n" pair.1)
      if text ≠ "" then some ⟨role, text, e.timestamp.getD "", pair.2⟩
      else none
  else none

/-- Lines 75-77: keep an entry unless the watermark is truthy, the
timestamp is truthy, and the timestamp is at most the watermark.  Python
compares strings lexicographically by code point, which is the order of
the underlying character lists (String.lt_iff_toList_lt). -/
def tsKeep (last_ts : Option String) (ts : String) : Bool :=
  match last_ts with
  | none => true
  | some w =>
    if w = "" then true else if ts = "" then true
    else decide (w.data < ts.data)

def readMessagesSince (ls : List Line) (last_ts : Option String) : List Msg :=
  match ls with
  | [] => []
  | .malformed :: rest => readMessagesSince rest last_ts
  | .entry e :: rest =>
    if tsKeep last_ts (e.timestamp.getD "") then
      match entryMessage e with
      | some m => m :: readMessagesSince rest last_ts
      | none => readMessagesSince rest last_ts
    else readMessagesSince rest last_ts

def lineMessage : Line → Option Msg
  | .malformed => none
  | .entry e => entryMessage e

theorem tsKeep_blank (w : Option String) : tsKeep w "" = true := by
  cases w with
  | none => rfl
  | some s => by_cases h : s = "" <;> simp [tsKeep, h]

theorem entryMessage_timestamp {e : Entry} {m : Msg}
    (h : entryMessage e = some m) : m.timestamp = e.timestamp.getD "" := by
  unfold entryMessage at h
  by_cases hty : e.etype = some "user" ∨ e.etype = some "assistant" ∨
      e.etype = some "system"
  · rw [if_pos hty] at h
    cases hm : e.message with
    | none => rw [hm] at h; simp at h
    | some msg =>
      rw [hm] at h
      dsimp only at h
      cases hc : msg.content <;> rw [hc] at h <;> dsimp only at h <;>
        split at h
      all_goals first
        | (simp only [Option.some.injEq] at h; rw [← h])
        | simp at h
  · rw [if_neg hty] at h; simp at h

theorem read_none_eq_filterMap (ls : List Line) :
    readMessagesSince ls none = ls.filterMap lineMessage := by
  induction ls with
  | nil => rfl
  | cons l rest ih =>
    cases l with
    | malformed => simpa [readMessagesSince, lineMessage] using ih
    | entry e =>
      have hk : tsKeep none (e.timestamp.getD "") = true := rfl
      cases he : entryMessage e <;>
        simp [readMessagesSince, hk, lineMessage, he, ih]

theorem read_some_eq_filter (ls : List Line) (w : String) :
    readMessagesSince ls (some w) =
      (readMessagesSince ls none).filter
        (fun m => tsKeep (some w) m.timestamp) := by
  induction ls with
  | nil => rfl
  | cons l rest ih =>
    cases l with
    | malformed => simpa [readMessagesSince] using ih
    | entry e =>
      have hk : tsKeep none (e.timestamp.getD "") = true := rfl
      cases he : entryMessage e with
      | none => simp [readMessagesSince, hk, he, ih]
      | some m =>
        have hts : m.timestamp = e.timestamp.getD "" := entryMessage_timestamp he
        by_cases hkw : tsKeep (some w) (e.timestamp.getD "") = true <;>
          simp [readMessagesSince, hk, he, ih, List.filter_cons, hts, hkw]

theorem read_eq_nil_of_bound (ls : List Line) (w : String) (hw : w ≠ "")
    (hall : ∀ m ∈ readMessagesSince ls none,
      m.timestamp ≠ "" ∧ m.timestamp.data ≤ w.data) :
    readMessagesSince ls (some w) = [] := by
  rw [read_some_eq_filter, List.filter_eq_nil_iff]
  intro m hm
  obtain ⟨h1, h2⟩ := hall m hm
  simp only [tsKeep, hw, if_false, h1, decide_eq_true_eq, if_neg]
  exact not_lt.mpr h2

theorem getLast?_mem_of_eq {l : List α} {x : α} (h : l.getLast? = some x) :
    x ∈ l := by
  induction l with
  | nil => simp at h
  | cons a t ih =>
    cases t with
    | nil =>
      simp only [List.getLast?_singleton, Option.some.injEq] at h
      simp [h]
    | cons b t2 =>
      rw [List.getLast?_cons_cons] at h
      exact List.mem_cons_of_mem a (ih h)

theorem filter_getLast?_of_pos {p : α → Bool} {l : List α} {x : α}
    (h : l.getLast? = some x) (hp : p x = true) :
    (l.filter p).getLast? = some x := by
  induction l with
  | nil => simp at h
  | cons a t ih =>
    cases t with
    | nil =>
      simp only [List.getLast?_singleton, Option.some.injEq] at h
      subst h
      simp [List.filter, hp]
    | cons b t2 =>
      rw [List.getLast?_cons_cons] at h
      have ht := ih h
      rw [List.filter_cons]
      split
      · cases hfl : (b :: t2).filter p with
        | nil => rw [hfl] at ht; simp at ht
        | cons c cs =>
          rw [hfl] at ht
          rw [List.getLast?_cons_cons]
          exact ht
      · exact ht

theorem mem_le_of_pairwise_getLast? {x : Msg} (l : List Msg) :
    l.Pairwise (fun a b => a.timestamp.data ≤ b.timestamp.data) →
    l.getLast? = some x → ∀ m ∈ l, m.timestamp.data ≤ x.timestamp.data := by
  induction l with
  | nil => intro _ h; simp at h
  | cons a t ih =>
    intro hp h m hm
    cases t with
    | nil =>
      simp only [List.getLast?_singleton, Option.some.injEq] at h
      subst h
      simp only [List.mem_singleton] at hm
      subst hm
      exact le_refl _
    | cons b t2 =>
      rw [List.getLast?_cons_cons] at h
      rcases List.mem_cons.mp hm with rfl | hm2
      · exact (List.pairwise_cons.mp hp).1 x (getLast?_mem_of_eq h)
      · exact ih (List.pairwise_cons.mp hp).2 h m hm2

/-- C4 counterexample: with watermark "2024-01-01", an entry whose
timestamp field is the empty string is returned by the cursor even though
its timestamp is not strictly greater than the watermark, so the output
is not exactly the events with timestamp above the watermark. -/
theorem transcriptCursor_includes_blank_timestamp :
    readMessagesSince
      [Line.entry ⟨some "", some "user", some ⟨some "user", .str "hi"⟩⟩]
      (some "2024-01-01") = [⟨"user", "hi", "", []⟩] ∧
    ¬ ("2024-01-01".data < "".data) := ⟨rfl, by decide⟩

/-- C4 amended: with an unset watermark the cursor returns every parsed
message in append order; with a watermark it returns exactly the parsed
messages whose timestamp is empty or strictly greater than the watermark,
still in append order (the cursor is a pure function of file contents and
watermark, so re-reading with the same watermark returns the same
sequence); and when all parsed messages carry non-empty timestamps that
are non-decreasing in append order, re-reading with the watermark set to
the last returned message's timestamp returns the empty sequence. -/
theorem transcriptCursor_filter_and_rewind :
    (∀ ls, readMessagesSince ls none = ls.filterMap lineMessage) ∧
    (∀ ls w, readMessagesSince ls (some w) =
      (readMessagesSince ls none).filter
        (fun m => tsKeep (some w) m.timestamp)) ∧
    (∀ (ls : List Line) (w : String) (mlast : Msg),
      (readMessagesSince ls none).Pairwise
        (fun a b => a.timestamp.data ≤ b.timestamp.data) →
      (∀ m ∈ readMessagesSince ls none, m.timestamp ≠ "") →
      (readMessagesSince ls (some w)).getLast? = some mlast →
      readMessagesSince ls (some mlast.timestamp) = []) := by
  refine ⟨read_none_eq_filterMap, read_some_eq_filter, ?_⟩
  intro ls w mlast hsort hne hlast
  have hout := read_some_eq_filter ls w
  have hmem_out : mlast ∈ readMessagesSince ls (some w) :=
    getLast?_mem_of_eq hlast
  have hmem_all : mlast ∈ readMessagesSince ls none := by
    rw [hout] at hmem_out
    exact List.mem_of_mem_filter hmem_out
  have hne_last : mlast.timestamp ≠ "" := hne mlast hmem_all
  cases hall : (readMessagesSince ls none).getLast? with
  | none =>
    rw [List.getLast?_eq_none_iff] at hall
    rw [hall] at hmem_all
    cases hmem_all
  | some lastAll =>
    have hAll_le := mem_le_of_pairwise_getLast? _ hsort hall
    have hne_all : lastAll.timestamp ≠ "" :=
      hne lastAll (getLast?_mem_of_eq hall)
    have hp_last : tsKeep (some w) lastAll.timestamp = true := by
      by_cases hw : w = ""
      · simp [tsKeep, hw]
      · have hpm : tsKeep (some w) mlast.timestamp = true := by
          rw [hout] at hmem_out
          exact (List.mem_filter.mp hmem_out).2
        have hlt : w.data < mlast.timestamp.data := by
          simpa [tsKeep, hw, hne_last] using hpm
        have hlt2 : w.data < lastAll.timestamp.data :=
          lt_of_lt_of_le hlt (hAll_le mlast hmem_all)
        simp [tsKeep, hw, hne_all, hlt2]
    have hlast2 : (readMessagesSince ls (some w)).getLast? = some lastAll := by
      rw [hout]
      exact filter_getLast?_of_pos hall hp_last
    have hmx : mlast = lastAll := by
      rw [hlast2] at hlast
      exact (Option.some.injEq _ _ ▸ hlast).symm
    refine read_eq_nil_of_bound ls mlast.timestamp hne_last ?_
    intro m hm
    exact ⟨hne m hm, by rw [hmx]; exact hAll_le m hm⟩

theorem transcriptCursor_filter_and_rewind_witness :
    readMessagesSince
      [Line.entry ⟨some "a", some "user", some ⟨some "user", .str "m1"⟩⟩,
       Line.entry ⟨some "b", some "user", some ⟨some "user", .str "m2"⟩⟩]
      (some (Msg.mk "user" "m2" "b" []).timestamp) = [] :=
  transcriptCursor_filter_and_rewind.2.2
    [Line.entry ⟨some "a", some "user", some ⟨some "user", .str "m1"⟩⟩,
     Line.entry ⟨some "b", some "user", some ⟨some "user", .str "m2"⟩⟩]
    "a" ⟨"user", "m2", "b", []⟩ (by decide) (by decide) (by decide)

/-- C10: an entry whose timestamp field is missing or empty passes the
watermark filter for every watermark, so such events are included in
every pass no matter how far the watermark has advanced. -/
theorem blank_timestamp_always_reprocessed :
    ∀ (ls : List Line) (w : Option String) (e : Entry) (m : Msg),
      Line.entry e ∈ ls → e.timestamp.getD "" = "" →
      entryMessage e = some m → m ∈ readMessagesSince ls w := by
  intro ls w e m
  induction ls with
  | nil => intro h _ _; cases h
  | cons l rest ih =>
    intro hmem hts hm
    rcases List.mem_cons.mp hmem with hl | hl
    · subst hl
      have hk : tsKeep w (e.timestamp.getD "") = true := by
        rw [hts]; exact tsKeep_blank w
      simp [readMessagesSince, hk, hm]
    · have htail := ih hl hts hm
      cases l with
      | malformed => simpa [readMessagesSince] using htail
      | entry e2 =>
        by_cases hk2 : tsKeep w (e2.timestamp.getD "") = true
        · simp only [readMessagesSince, hk2, if_true]
          cases he2 : entryMessage e2 <;> simp [htail]
        · simp [readMessagesSince, hk2, htail]

theorem blank_timestamp_always_reprocessed_witness :
    Msg.mk "user" "hi" "" [] ∈ readMessagesSince
      [Line.entry ⟨none, some "user", some ⟨some "user", .str "hi"⟩⟩]
      (some "2999-12-31") :=
  blank_timestamp_always_reprocessed
    [Line.entry ⟨none, some "user", some ⟨some "user", .str "hi"⟩⟩]
    (some "2999-12-31") ⟨none, some "user", some ⟨some "user", .str "hi"⟩⟩
    ⟨"user", "hi", "", []⟩ (by decide) rfl rfl

/-! ## ContextSanitizer: src/hooks/sidekick-review-worker.py lines 117-148

`sanitize` keeps the last MAX_EVENTS messages, rewrites each message text
(stripping identifier-like key:value pairs and ANSI escapes and
truncating fenced code blocks, lines 124-137), prefixes a `ROLE @
timestamp` header, joins the chunks with a dashed separator, and finally
caps the total line count, appending a truncation marker when the cap is
exceeded.  The per-message rewriting is a pure text transformation inside
one message and is abstracted as the parameter `scrub`; every theorem
below holds for an arbitrary such function, hence in particular for the
regex pipeline of the source.  The same global-cap code appears in
sidekick-review-worker-enhanced.py lines 190-196. -/

def dashSep : String := "\n" ++ ⟨List.replicate 60 '-'⟩ ++ "\n"

/-- Python str.upper() over the character list. -/
def pyUpper (s : String) : String := ⟨s.data.map Char.toUpper⟩

/-- Line 140: one cleaned chunk per message. -/
def chunkOf (scrub : String → String) (m : Msg) : String :=
  pyUpper m.role ++ " @ " ++ m.timestamp ++ "\n" ++ scrub m.text ++ "\n"

/-- Lines 121-143: the joined text before the global line cap. -/
def preCapText (scrub : String → String) (maxEvents : Nat)
    (msgs : List Msg) : String :=
  pyJoin dashSep ((pyTail maxEvents msgs).map (chunkOf scrub))

/-- Line 146: the appended truncation marker (without its leading
newline). -/
def truncMarker (k : Nat) : String :=
  "... [truncated " ++ Nat.repr k ++ " lines]"

/-- Lines 117-148. -/
def sanitize (scrub : String → String) (maxEvents maxTotalLines : Nat)
    (msgs : List Msg) : String :=
  let all_text := preCapText scrub maxEvents msgs
  let lines := pysplitlines all_text
  if maxTotalLines < lines.length then
    pyJoin "\n" (lines.take maxTotalLines) ++ "\n" ++
      truncMarker (lines.length - maxTotalLines)
  else all_text

theorem splitNLAux_cons_nl (rest acc : List Char) :
    splitNLAux ('\n' :: rest) acc = acc.reverse :: splitNLAux rest [] := by
  simp [splitNLAux]

theorem splitNLAux_cons_ne {c : Char} (rest acc : List Char) (h : c ≠ '\n') :
    splitNLAux (c :: rest) acc = splitNLAux rest (c :: acc) := by
  simp [splitNLAux, h]

theorem splitNLAux_append_no_nl :
    ∀ (xs : List Char), '\n' ∉ xs → ∀ (ys acc : List Char),
      splitNLAux (xs ++ ys) acc = splitNLAux ys (xs.reverse ++ acc) := by
  intro xs
  induction xs with
  | nil => intro _ ys acc; simp
  | cons c t ih =>
    intro h ys acc
    have hc : c ≠ '\n' := fun hv => h (hv ▸ List.mem_cons_self c t)
    have ht : '\n' ∉ t := fun hv => h (List.mem_cons_of_mem c hv)
    rw [List.cons_append, splitNLAux_cons_ne _ _ hc, ih ht]
    simp

theorem splitNLAux_no_nl_mem :
    ∀ (cs acc : List Char), '\n' ∉ acc →
      ∀ l ∈ splitNLAux cs acc, '\n' ∉ l := by
  intro cs
  induction cs with
  | nil =>
    intro acc hacc l hl
    simp only [splitNLAux] at hl
    split at hl
    · cases hl
    · simp only [List.mem_singleton] at hl
      subst hl
      simpa using hacc
  | cons c t ih =>
    intro acc hacc l hl
    by_cases hc : c = '\n'
    · subst hc
      rw [splitNLAux_cons_nl] at hl
      rcases List.mem_cons.mp hl with rfl | hl2
      · simpa using hacc
      · exact ih [] (by simp) l hl2
    · rw [splitNLAux_cons_ne _ _ hc] at hl
      refine ih (c :: acc) ?_ l hl
      intro hmem
      rcases List.mem_cons.mp hmem with h1 | h2
      · exact hc h1.symm
      · exact hacc h2

/-- Joining character lines with a newline. -/
def joinNL : List (List Char) → List Char
  | [] => []
  | [x] => x
  | x :: xs => x ++ '\n' :: joinNL xs

theorem splitNLAux_joinNL :
    ∀ (l : List (List Char)), l ≠ [] → (∀ x ∈ l, '\n' ∉ x) →
      l.getLast? ≠ some [] → splitNLAux (joinNL l) [] = l := by
  intro l
  induction l with
  | nil => intro h; exact absurd rfl h
  | cons x t ih =>
    intro _ hall hlast
    cases t with
    | nil =>
      have hx : x ≠ [] := by
        intro hxe
        exact hlast (by simp [hxe])
      show splitNLAux (joinNL [x]) [] = [x]
      rw [show joinNL [x] = x from rfl,
        show (x : List Char) = x ++ [] by simp,
        splitNLAux_append_no_nl x (hall x (by simp)) [] []]
      simp only [splitNLAux]
      rw [if_neg]
      · simp
      · simpa using hx
    | cons y t2 =>
      rw [show joinNL (x :: y :: t2) = x ++ '\n' :: joinNL (y :: t2) from rfl,
        splitNLAux_append_no_nl x (hall x (by simp)) _ [],
        List.append_nil, splitNLAux_cons_nl, List.reverse_reverse]
      rw [ih (by simp) (fun a ha => hall a (List.mem_cons_of_mem x ha))
        (by simpa using hlast)]

theorem pyJoin_nl_data :
    ∀ (l : List String), (pyJoin "\n" l).data = joinNL (l.map String.data) := by
  intro l
  induction l with
  | nil => rfl
  | cons x t ih =>
    cases t with
    | nil => rfl
    | cons y t2 =>
      show (x ++ "\n" ++ pyJoin "\n" (y :: t2)).data = _
      rw [String.data_append, String.data_append, ih,
        show ("\n".data : List Char) = ['\n'] from rfl, List.append_assoc]
      rfl

theorem data_ne_nil_of_ne_empty {s : String} (h : s ≠ "") : s.data ≠ [] := by
  intro hd
  apply h
  cases s
  simp_all

theorem pysplit_join_marker (l : List String) (mk : String) (hl : l ≠ [])
    (hall : ∀ x ∈ l, '\n' ∉ x.data) (hmk : '\n' ∉ mk.data) (hne : mk ≠ "") :
    pysplitlines (pyJoin "\n" l ++ "\n" ++ mk) = l ++ [mk] := by
  unfold pysplitlines
  have hdata : (pyJoin "\n" l ++ "\n" ++ mk).data =
      joinNL ((l ++ [mk]).map String.data) := by
    rw [String.data_append, String.data_append, pyJoin_nl_data]
    have : ∀ (m : List (List Char)) (mkd : List Char), m ≠ [] →
        joinNL m ++ '\n' :: mkd = joinNL (m ++ [mkd]) := by
      intro m
      induction m with
      | nil => intro mkd h; exact absurd rfl h
      | cons a t ihm =>
        intro mkd _
        cases t with
        | nil => rfl
        | cons b t2 =>
          show (a ++ '\n' :: joinNL (b :: t2)) ++ '\n' :: mkd = _
          rw [List.append_assoc, List.cons_append, ihm mkd (by simp)]
          rfl
    rw [show ("\n".data : List Char) = ['\n'] from rfl]
    rw [List.append_assoc]
    show joinNL (l.map String.data) ++ '\n' :: mk.data = _
    rw [this (l.map String.data) mk.data (by simpa using hl)]
    simp
  rw [hdata, splitNLAux_joinNL]
  · rw [List.map_map,
      show ((fun cs => (⟨cs⟩ : String)) ∘ String.data) = id from
        funext fun s => rfl,
      List.map_id]
  · simp
  · intro x hx
    rcases List.mem_map.mp hx with ⟨s, hs, rfl⟩
    rcases List.mem_append.mp hs with h1 | h2
    · exact hall s h1
    · simp only [List.mem_singleton] at h2
      subst h2
      exact hmk
  · rw [List.map_append, show List.map String.data [mk] = [mk.data] from rfl,
      List.getLast?_concat]
    intro hcon
    simp only [Option.some.injEq] at hcon
    exact data_ne_nil_of_ne_empty hne hcon

theorem digitChar_ne_nl (n : Nat) : Nat.digitChar n ≠ '\n' := by
  by_cases h : n < 16
  · interval_cases n <;> decide
  · have h0 : ¬ (n = 0) := by omega
    have h1 : ¬ (n = 1) := by omega
    have h2 : ¬ (n = 2) := by omega
    have h3 : ¬ (n = 3) := by omega
    have h4 : ¬ (n = 4) := by omega
    have h5 : ¬ (n = 5) := by omega
    have h6 : ¬ (n = 6) := by omega
    have h7 : ¬ (n = 7) := by omega
    have h8 : ¬ (n = 8) := by omega
    have h9 : ¬ (n = 9) := by omega
    have h10 : ¬ (n = 10) := by omega
    have h11 : ¬ (n = 11) := by omega
    have h12 : ¬ (n = 12) := by omega
    have h13 : ¬ (n = 13) := by omega
    have h14 : ¬ (n = 14) := by omega
    have h15 : ¬ (n = 15) := by omega
    simp only [Nat.digitChar, h0, h1, h2, h3, h4, h5, h6, h7, h8, h9, h10,
      h11, h12, h13, h14, h15, if_false]
    decide

theorem toDigitsCore_no_nl :
    ∀ (fuel b n : Nat) (acc : List Char), '\n' ∉ acc →
      '\n' ∉ Nat.toDigitsCore b fuel n acc := by
  intro fuel
  induction fuel with
  | zero => intro b n acc h; simpa [Nat.toDigitsCore] using h
  | succ f ih =>
    intro b n acc h
    have hd : '\n' ∉ Nat.digitChar (n % b) :: acc := by
      intro hm
      rcases List.mem_cons.mp hm with h1 | h2
      · exact digitChar_ne_nl (n % b) h1.symm
      · exact h h2
    simp only [Nat.toDigitsCore]
    split
    · exact hd
    · exact ih b (n / b) _ hd

theorem natRepr_no_nl (n : Nat) : '\n' ∉ (Nat.repr n).data := by
  have hrepr : (Nat.repr n).data = Nat.toDigitsCore 10 (n + 1) n [] := rfl
  rw [hrepr]
  exact toDigitsCore_no_nl _ _ _ _ (by simp)

theorem truncMarker_no_nl (k : Nat) : '\n' ∉ (truncMarker k).data := by
  unfold truncMarker
  rw [String.data_append, String.data_append]
  intro hm
  rcases List.mem_append.mp hm with h1 | h2
  · rcases List.mem_append.mp h1 with h3 | h4
    · exact (by decide : '\n' ∉ ("... [truncated ".data : List Char)) h3
    · exact natRepr_no_nl k h4
  · exact (by decide : '\n' ∉ (" lines]".data : List Char)) h2

theorem truncMarker_ne_empty (k : Nat) : truncMarker k ≠ "" := by
  intro h
  have hc := congrArg String.data h
  simp [truncMarker, String.data_append] at hc

theorem pysplitlines_no_nl (s : String) :
    ∀ x ∈ pysplitlines s, '\n' ∉ x.data := by
  intro x hx
  unfold pysplitlines at hx
  rcases List.mem_map.mp hx with ⟨cs, hcs, rfl⟩
  exact splitNLAux_no_nl_mem s.data [] (by simp) cs hcs

/-- C5 counterexample: with a total line cap of 1 and a message whose
chunk spans three lines, the sanitized output has two lines (the cap plus
the truncation marker line), exceeding maxTotalLines. -/
theorem sanitize_exceeds_line_cap :
    (pysplitlines (sanitize id 60 1 [⟨"user", "a\nb", "t", []⟩])).length = 2 ∧
    ¬ ((2 : Nat) ≤ 1) := ⟨rfl, by decide⟩

/-- C5 amended: the sanitized output never exceeds maxTotalLines + 1
lines (for any cap of at least one line), and whenever the pre-cap text
exceeds the cap the output is exactly the first maxTotalLines lines
followed by one final marker line recording the omitted line count. -/
theorem sanitize_line_cap_plus_marker :
    (∀ (scrub : String → String) (maxE maxT : Nat) (msgs : List Msg),
      1 ≤ maxT →
      (pysplitlines (sanitize scrub maxE maxT msgs)).length ≤ maxT + 1) ∧
    (∀ (scrub : String → String) (maxE maxT : Nat) (msgs : List Msg),
      1 ≤ maxT →
      maxT < (pysplitlines (preCapText scrub maxE msgs)).length →
      pysplitlines (sanitize scrub maxE maxT msgs) =
        (pysplitlines (preCapText scrub maxE msgs)).take maxT ++
        [truncMarker
          ((pysplitlines (preCapText scrub maxE msgs)).length - maxT)]) := by
  have key : ∀ (scrub : String → String) (maxE maxT : Nat) (msgs : List Msg),
      1 ≤ maxT →
      maxT < (pysplitlines (preCapText scrub maxE msgs)).length →
      pysplitlines (sanitize scrub maxE maxT msgs) =
        (pysplitlines (preCapText scrub maxE msgs)).take maxT ++
        [truncMarker
          ((pysplitlines (preCapText scrub maxE msgs)).length - maxT)] := by
    intro scrub maxE maxT msgs h1 hexceed
    have hs : sanitize scrub maxE maxT msgs =
        pyJoin "\n" ((pysplitlines (preCapText scrub maxE msgs)).take maxT) ++
          "\n" ++
          truncMarker
            ((pysplitlines (preCapText scrub maxE msgs)).length - maxT) := by
      simp only [sanitize]
      rw [if_pos hexceed]
    rw [hs]
    refine pysplit_join_marker _ _ ?_ ?_ (truncMarker_no_nl _)
      (truncMarker_ne_empty _)
    · intro hnil
      have := congrArg List.length hnil
      rw [List.length_take] at this
      simp only [List.length_nil] at this
      omega
    · intro x hx
      exact pysplitlines_no_nl _ x (List.take_subset _ _ hx)
  refine ⟨?_, key⟩
  intro scrub maxE maxT msgs h1
  by_cases hx : maxT < (pysplitlines (preCapText scrub maxE msgs)).length
  · rw [key scrub maxE maxT msgs h1 hx]
    rw [List.length_append, List.length_take]
    simp only [List.length_singleton]
    omega
  · have hsame : sanitize scrub maxE maxT msgs = preCapText scrub maxE msgs := by
      simp only [sanitize]
      rw [if_neg hx]
    rw [hsame]
    omega

theorem sanitize_line_cap_plus_marker_witness :
    (pysplitlines (sanitize id 60 1 [⟨"user", "a\nb", "t", []⟩])).length ≤
      1 + 1 ∧
    pysplitlines (sanitize id 60 1 [⟨"user", "a\nb", "t", []⟩]) =
      (pysplitlines (preCapText id 60 [⟨"user", "a\nb", "t", []⟩])).take 1 ++
      [truncMarker
        ((pysplitlines (preCapText id 60 [⟨"user", "a\nb", "t", []⟩])).length -
          1)] :=
  ⟨sanitize_line_cap_plus_marker.1 id 60 1 [⟨"user", "a\nb", "t", []⟩]
     (by decide),
   sanitize_line_cap_plus_marker.2 id 60 1 [⟨"user", "a\nb", "t", []⟩]
     (by decide) (by decide)⟩

/-! ## Save paths: src/hooks/sidekick-review-worker.py lines 46-49 versus
src/hooks/sidekick-review-worker-enhanced.py lines 48-51

The base review worker's `save_json` writes the serialized record to
`path.with_suffix(".tmp")` in the same directory and then renames it over
the target (`tmp.replace(path)`); the counter's `save_state` (lines
42-53) uses the same temp-then-rename pattern.  The enhanced worker's
`save_json` — and the advanced memory worker's (lines 49-52) — instead
opens the target with mode "w", truncating it, and streams the
serialization into it in place.  A save is modelled as a list of
filesystem steps; `reachableStates` lists the states a concurrent reader
can observe, one after each step.  `chunks` are the pieces in which
json.dump streams the serialized record; their concatenation is the full
record. -/

structure FileSys where
  target : Option String
  temp : Option String
deriving DecidableEq, Repr

def reachableStates : List (FileSys → FileSys) → FileSys → List FileSys
  | [], fs => [fs]
  | f :: rest, fs => fs :: reachableStates rest (f fs)

/-- Temp-file-then-rename (review worker lines 46-49, counter lines
42-53): create the temp file, stream the chunks into it, atomically
rename it over the target. -/
def atomicSaveSteps (chunks : List String) : List (FileSys → FileSys) :=
  (fun fs => ⟨fs.target, some ""⟩) ::
  (chunks.map (fun c => fun fs => ⟨fs.target, fs.temp.map (· ++ c)⟩) ++
   [fun fs => ⟨fs.temp, none⟩])

/-- In-place write (enhanced worker lines 48-51, advanced worker lines
49-52): open the target with mode "w" — truncating it — then stream the
chunks into it. -/
def directSaveSteps (chunks : List String) : List (FileSys → FileSys) :=
  (fun fs => ⟨some "", fs.temp⟩) ::
  chunks.map (fun c => fun fs => ⟨fs.target.map (· ++ c), fs.temp⟩)

/-- Python str concatenation of the streamed chunks. -/
def concatChunks (chunks : List String) : String :=
  chunks.foldl (fun a c => a ++ c) ""

/-- C6 counterexample: with the enhanced worker's in-place save_json, a
reader immediately after the open("w") truncation observes an empty
target file, which is neither the complete prior record nor the complete
new one.  So not every save of a memory or pending-nudge record is
temp-file-then-rename atomic. -/
theorem directSave_exposes_partial_state :
    FileSys.mk (some "") none ∈
      reachableStates (directSaveSteps ["new-record"])
        ⟨some "old-record", none⟩ ∧
    ("" : String) ≠ "old-record" ∧ ("" : String) ≠ "new-record" := by
  refine ⟨?_, by decide, by decide⟩
  simp [directSaveSteps, reachableStates]


theorem reachableStates_ne_nil (steps : List (FileSys → FileSys))
    (fs : FileSys) : reachableStates steps fs ≠ [] := by
  cases steps <;> simp [reachableStates]

theorem self_mem_reachableStates (steps : List (FileSys → FileSys))
    (fs : FileSys) : fs ∈ reachableStates steps fs := by
  cases steps <;> simp [reachableStates]

theorem reachableStates_getLast (steps : List (FileSys → FileSys)) :
    ∀ fs, (reachableStates steps fs).getLast? =
      some (steps.foldl (fun a f => f a) fs) := by
  induction steps with
  | nil => intro fs; rfl
  | cons f rest ih =>
    intro fs
    simp only [reachableStates, List.foldl_cons]
    cases hrest : reachableStates rest (f fs) with
    | nil => exact absurd hrest (reachableStates_ne_nil rest (f fs))
    | cons a t =>
      rw [List.getLast?_cons_cons, ← hrest, ih]

theorem atomic_phase_states (chunks : List String) (old : Option String) :
    ∀ (t : String), ∀ fs ∈ reachableStates
        (chunks.map
          (fun c => fun fs : FileSys => ⟨fs.target, fs.temp.map (· ++ c)⟩) ++
         [fun fs => ⟨fs.temp, none⟩]) ⟨old, some t⟩,
      fs.target = old ∨
        fs.target = some (chunks.foldl (fun a c => a ++ c) t) := by
  induction chunks with
  | nil =>
    intro t fs h
    simp only [List.map_nil, List.nil_append, reachableStates,
      List.mem_cons] at h
    rcases h with rfl | h2
    · exact Or.inl rfl
    · rcases h2 with rfl | h3
      · exact Or.inr rfl
      · exact (List.not_mem_nil fs h3).elim
  | cons c cs ih =>
    intro t fs h
    simp only [List.map_cons, List.cons_append, reachableStates,
      List.mem_cons] at h
    rcases h with rfl | h2
    · exact Or.inl rfl
    · exact ih (t ++ c) fs h2

/-- C6 amended: the base review worker's save_json and the counter's
save_state are atomic — at every point during such a save a reader of the
target sees either the complete prior content or the complete new record,
and the save finishes with the new record in place — but the enhanced and
advanced workers' save_json writes the target in place, so a reader can
observe the truncated (empty) target mid-save. -/
theorem saveJson_atomicity_split :
    (∀ (chunks : List String) (old temp0 : Option String),
      ∀ fs ∈ reachableStates (atomicSaveSteps chunks) ⟨old, temp0⟩,
        fs.target = old ∨ fs.target = some (concatChunks chunks)) ∧
    (∀ (chunks : List String) (old temp0 : Option String),
      (reachableStates (atomicSaveSteps chunks) ⟨old, temp0⟩).getLast? =
        some ⟨some (concatChunks chunks), none⟩) ∧
    (∀ (chunks : List String) (old : Option String) (temp0 : Option String),
      FileSys.mk (some "") temp0 ∈
        reachableStates (directSaveSteps chunks) ⟨old, temp0⟩) := by
  refine ⟨?_, ?_, ?_⟩
  · intro chunks old temp0 fs h
    simp only [atomicSaveSteps, reachableStates, List.mem_cons] at h
    rcases h with rfl | h2
    · exact Or.inl rfl
    · exact atomic_phase_states chunks old "" fs h2
  · intro chunks old temp0
    rw [reachableStates_getLast]
    have phase : ∀ (cs : List String) (o : Option String) (t : String),
        ((cs.map
          (fun c => fun fs : FileSys =>
            (⟨fs.target, fs.temp.map (· ++ c)⟩ : FileSys)) ++
         [fun fs : FileSys => (⟨fs.temp, none⟩ : FileSys)]).foldl
          (fun (a : FileSys) (f : FileSys → FileSys) => f a) ⟨o, some t⟩ :
          FileSys) =
        ⟨some (cs.foldl (fun a c => a ++ c) t), none⟩ := by
      intro cs
      induction cs with
      | nil => intro o t; rfl
      | cons c cs2 ih =>
        intro o t
        simp only [List.map_cons, List.cons_append, List.foldl_cons]
        exact ih o (t ++ c)
    simp only [atomicSaveSteps, List.foldl_cons]
    rw [phase chunks old ""]
    rfl
  · intro chunks old temp0
    simp only [directSaveSteps, reachableStates, List.mem_cons]
    exact Or.inr (self_mem_reachableStates _ _)

theorem saveJson_atomicity_split_witness :
    ((FileSys.mk (some "o") (some "ab")).target = some "o" ∨
      (FileSys.mk (some "o") (some "ab")).target =
        some (concatChunks ["ab", "c"])) ∧
    (reachableStates (atomicSaveSteps ["ab", "c"])
        ⟨some "o", none⟩).getLast? = some ⟨some (concatChunks ["ab", "c"]), none⟩ ∧
    FileSys.mk (some "") none ∈
      reachableStates (directSaveSteps ["ab", "c"]) ⟨some "o", none⟩ :=
  ⟨saveJson_atomicity_split.1 ["ab", "c"] (some "o") none
     ⟨some "o", some "ab"⟩
     (by simp [atomicSaveSteps, reachableStates]),
   saveJson_atomicity_split.2.1 ["ab", "c"] (some "o") none,
   saveJson_atomicity_split.2.2 ["ab", "c"] (some "o") none⟩

/-! ## MemoryStore merge: src/hooks/sidekick-memory-advanced.py
build_rich_memory (lines 352-498) and the post-advice memory updates in
its main (lines 683-704), plus the enhanced worker's key-decision merge
(sidekick-review-worker-enhanced.py lines 302-304 and 358-364).

Python dicts with insertion order become ordered association lists; the
text-summarization helpers `summarize_messages` and `extract_key_points`
and the filename regex of the struggling-feature detector (line 424) are
pure text functions abstracted as parameters `summarize`, `extractKey`
and `fileMatch`: every bounded-list theorem below holds for all of them.
Entries of `struggling_features` have two shapes: those built by the
merge (file/edit_count/session/suggestion) and those appended by main
from AI rollback recommendations (feature/ai_suggested_rollback/session,
lines 694-700). -/

/-- Python str.lower() over the character list. -/
def pyLower (s : String) : String := ⟨s.data.map Char.toLower⟩

/-- Python character slicing s[:n]. -/
def pyTake (s : String) (n : Nat) : String := ⟨s.data.take n⟩

def pyInAux (n : List Char) : List Char → Bool
  | [] => n.isEmpty
  | c :: t => n.isPrefixOf (c :: t) || pyInAux n t

/-- Python substring test `needle in hay`. -/
def pyIn (needle hay : String) : Bool := pyInAux needle.data hay.data

structure GitContext where
  branch : String
  recent_commits : List String
  uncommitted_changes : Nat
  last_commit_message : String
  commit_frequency : String
deriving DecidableEq, Repr

structure ProjectContext where
  languages : List String
  frameworks : List String
  build_tools : List String
  test_frameworks : List String
  has_tests : Bool
  project_type : String
deriving DecidableEq, Repr

structure ConvSummary where
  recent : String
  rolling : String
  historical : String
deriving DecidableEq, Repr

structure ActiveFeature where
  id : String
  file : String
  started : String
  iterations : Nat
deriving DecidableEq, Repr

structure RemovedFeature where
  id : String
  file : String
  removed : String
deriving DecidableEq, Repr

inductive StrugglingEntry where
  | edits (file : String) (edit_count : Nat) (session : Nat)
      (suggestion : String)
  | aiRollback (feature : String) (session : Nat)
deriving DecidableEq, Repr

structure FeatureLifecycle where
  active_features : List ActiveFeature
  completed_features : List String
  struggling_features : List StrugglingEntry
  removed_features : List RemovedFeature
deriving DecidableEq, Repr

structure TechDecision where
  decision : String
  timestamp : String
  session : Nat
deriving DecidableEq, Repr

structure Insight where
  timestamp : String
  insight : String
  session : Nat
deriving DecidableEq, Repr

structure Recommendation where
  rtype : String
  reason : String
  suggestion : String
  confidence : Rat
deriving DecidableEq, Repr

structure FeatureChange where
  ctype : String
  file : String
  timestamp : String
deriving DecidableEq, Repr

structure RichMemory where
  last_timestamp : Option String
  sessions : Nat
  last_updated : String
  project_context : Option ProjectContext
  git_context : Option GitContext
  conversation_summary : Option ConvSummary
  feature_lifecycle : Option FeatureLifecycle
  technical_decisions : List TechDecision
  error_patterns : List (String × Nat)
  recommendations : List Recommendation
  ai_insights : List Insight
deriving DecidableEq, Repr

/-- Lines 406-411: additions become active features with the id
`file_timestamp[:10]`. -/
def featureAdds (changes : List FeatureChange) : List ActiveFeature :=
  (changes.filter (fun c => c.ctype == "addition")).map
    (fun c => ⟨c.file ++ "_" ++ pyTake c.timestamp 10, c.file, c.timestamp, 1⟩)

/-- Lines 412-417. -/
def featureRemovals (changes : List FeatureChange) : List RemovedFeature :=
  (changes.filter (fun c => c.ctype == "removal")).map
    (fun c => ⟨c.file ++ "_" ++ pyTake c.timestamp 10, c.file, c.timestamp⟩)

/-- Increment a key in an insertion-ordered counter dict. -/
def bumpCount (l : List (String × Nat)) (k : String) : List (String × Nat) :=
  if l.any (fun p => p.1 == k) then
    l.map (fun p => if p.1 == k then (p.1, p.2 + 1) else p)
  else l ++ [(k, 1)]

/-- Lines 420-427: count Edit/MultiEdit tool uses per extracted
filename. -/
def editCounts (fileMatch : String → Option String) (msgs : List Msg) :
    List (String × Nat) :=
  msgs.foldl (fun acc m =>
    m.tools.foldl (fun acc2 tool =>
      if tool == "Edit" || tool == "MultiEdit" then
        match fileMatch m.text with
        | some f => bumpCount acc2 f
        | none => acc2
      else acc2) acc) []

/-- Lines 429-436: files edited more than five times become struggling
entries. -/
def strugglesOf (fileMatch : String → Option String) (sessions : Nat)
    (msgs : List Msg) : List StrugglingEntry :=
  ((editCounts fileMatch msgs).filter (fun p => decide (5 < p.2))).map
    (fun p => .edits p.1 p.2 sessions
      ("Consider reverting changes to " ++ p.1 ++
       " and trying a different approach"))

def decisionKeywords : List String :=
  ["decided", "chose", "using", "switched to", "migrated"]

/-- Lines 447-455. -/
def newTechDecisions (sessions : Nat) (msgs : List Msg) :
    List TechDecision :=
  (msgs.filter (fun m =>
    decisionKeywords.any (fun k => pyIn k (pyLower m.text)) &&
    decide (m.text.length < 300))).map
    (fun m => ⟨pyTake m.text 200, m.timestamp, sessions⟩)

/-- Lines 463-473. -/
def classifyError (text : String) : Option String :=
  let lt := pyLower text
  if pyIn "error" lt then
    some (if pyIn "typescript" lt || pyIn "type error" lt then "typescript"
      else if pyIn "import" lt then "import"
      else if pyIn "undefined" lt || pyIn "null" lt then "null_reference"
      else "unknown")
  else none

def foldErrorPatterns (init : List (String × Nat)) (msgs : List Msg) :
    List (String × Nat) :=
  msgs.foldl (fun acc m =>
    match classifyError m.text with
    | some k => bumpCount acc k
    | none => acc) init

def strugFile : StrugglingEntry → String
  | .edits f _ _ _ => f
  | .aiRollback f _ => f

def strugCount : StrugglingEntry → Nat
  | .edits _ c _ _ => c
  | .aiRollback _ _ => 0

/-- Lines 476-496: recommendations are recomputed from the capped
struggling list.  On an AI-shaped struggling entry Python would raise
KeyError when formatting the reason; the field accessors here are total,
which does not affect any bounded-list property. -/
def recommendationsOf (fl : FeatureLifecycle) (git : GitContext)
    (proj : ProjectContext) (sessions : Nat) : List Recommendation :=
  (match fl.struggling_features.getLast? with
   | some latest =>
     if git.recent_commits ≠ [] then
       [⟨"rollback",
         "File " ++ strugFile latest ++ " edited " ++
           Nat.repr (strugCount latest) ++ " times",
         "git reset --soft HEAD~1 to undo last commit and try different approach",
         7/10⟩]
     else []
   | none => []) ++
  (if proj.has_tests = false ∧ 5 < sessions then
     [⟨"testing", "No test directory found after multiple sessions",
       "Initialize test framework: pnpm add -D jest @types/jest", 9/10⟩]
   else [])

/-- Lines 352-498: the merge. -/
def buildRichMemory (summarize : List Msg → String)
    (extractKey : String → String) (fileMatch : String → Option String)
    (nowTs : String) (memory : RichMemory) (msgs : List Msg)
    (changes : List FeatureChange) (git : GitContext)
    (proj : ProjectContext) : RichMemory :=
  let sessions := memory.sessions + 1
  let project_context :=
    if memory.project_context = none ∨ sessions % 10 = 0 then some proj
    else memory.project_context
  let cs0 := memory.conversation_summary.getD ⟨"", "", ""⟩
  let new_summary := summarize msgs
  let rolling :=
    pyTake ("Session " ++ Nat.repr sessions ++ ": " ++ new_summary ++ "\n" ++
      cs0.rolling) 3000
  let historical :=
    if sessions % 5 = 0 ∧ rolling ≠ "" then
      pyTake (extractKey rolling ++ "\n" ++ cs0.historical) 2000
    else cs0.historical
  let fl0 := memory.feature_lifecycle.getD ⟨[], [], [], []⟩
  let fl1 : FeatureLifecycle :=
    ⟨pyTail 20 (fl0.active_features ++ featureAdds changes),
     pyTail 20 fl0.completed_features,
     pyTail 20 (fl0.struggling_features ++ strugglesOf fileMatch sessions msgs),
     pyTail 20 (fl0.removed_features ++ featureRemovals changes)⟩
  { last_timestamp := memory.last_timestamp
    sessions := sessions
    last_updated := nowTs
    project_context := project_context
    git_context := some git
    conversation_summary := some ⟨new_summary, rolling, historical⟩
    feature_lifecycle := some fl1
    technical_decisions :=
      pyTail 30 (memory.technical_decisions ++ newTechDecisions sessions msgs)
    error_patterns := foldErrorPatterns memory.error_patterns msgs
    recommendations := recommendationsOf fl1 git proj sessions
    ai_insights := memory.ai_insights }

/-- Main, lines 683-691: append a non-empty AI insight and cap to the
last 20. -/
def appendInsight (nowTs : String) (insight : String)
    (memory : RichMemory) : RichMemory :=
  if insight ≠ "" then
    { memory with
      ai_insights :=
        pyTail 20 (memory.ai_insights ++ [⟨nowTs, insight, memory.sessions⟩]) }
  else memory

/-- Main, lines 693-700: AI rollback recommendations are appended to the
struggling list after the merge's cap, with no re-capping before the
save at line 704. -/
def applyRollbackRecs (rollbacks : List String) (memory : RichMemory) :
    RichMemory :=
  match memory.feature_lifecycle with
  | some fl =>
    { memory with
      feature_lifecycle := some
        { fl with
          struggling_features :=
            fl.struggling_features ++
              rollbacks.map (fun f => .aiRollback f memory.sessions) } }
  | none => memory

structure KeyDecision where
  timestamp : String
  events : List String
  summary : String
deriving DecidableEq, Repr

/-- Enhanced worker line 303: merge transcript-derived key decisions and
keep the last 50. -/
def mergeKeyDecisions (old new : List KeyDecision) : List KeyDecision :=
  pyTail 50 (old ++ new)

theorem pyTail_length_le (k : Nat) (l : List α) : (pyTail k l).length ≤ k := by
  rw [length_pyTail]
  omega

/-- C7 counterexample: one full advanced pass from fresh memory — merge,
insight update, then the AI rollback append of lines 694-700 — persists a
struggling_features list of 21 distinct entries, exceeding the documented
cap of 20, because the rollback append happens after the merge's cap and
the memory is saved without re-capping. -/
theorem struggling_features_exceed_cap_after_pass :
    ((applyRollbackRecs ((List.range 21).map (fun i => "f" ++ Nat.repr i))
        (appendInsight "T" "insight"
          (buildRichMemory (fun _ => "") (fun s => s) (fun _ => none) "T"
            ⟨none, 0, "", none, none, none, none, [], [], [], []⟩ [] []
            ⟨"main", [], 0, "", "unknown"⟩
            ⟨[], [], [], [], true, "unknown"⟩))).feature_lifecycle.getD
        ⟨[], [], [], []⟩).struggling_features.length = 21 ∧
    ¬ ((21 : Nat) ≤ 20) := ⟨rfl, by decide⟩


/-- C7 amended: immediately after every merge step — build_rich_memory,
the enhanced worker's key-decision merge, and the ai_insights update —
each bounded list is at or under its cap (20 for the four lifecycle
lists, 30 for technical decisions, 50 for key decisions, 20 for AI
insights) and eviction is strictly oldest-first: the survivors are
exactly the trailing cap entries of old-entries-then-appended-entries, so
inserting cap + 5 entries leaves exactly the last cap.  However, the
advanced worker's AI rollback append (lines 694-700) adds struggling
entries after the merge's cap without re-capping, so the persisted
struggling_features list can exceed 20 until the next merge. -/
theorem memory_bounded_lists_fifo :
    (∀ (summarize : List Msg → String) (extractKey : String → String)
        (fileMatch : String → Option String) (nowTs : String)
        (memory : RichMemory) (msgs : List Msg)
        (changes : List FeatureChange) (git : GitContext)
        (proj : ProjectContext),
      ((buildRichMemory summarize extractKey fileMatch nowTs memory msgs
          changes git proj).feature_lifecycle.getD
          ⟨[], [], [], []⟩).active_features.length ≤ 20 ∧
      ((buildRichMemory summarize extractKey fileMatch nowTs memory msgs
          changes git proj).feature_lifecycle.getD
          ⟨[], [], [], []⟩).completed_features.length ≤ 20 ∧
      ((buildRichMemory summarize extractKey fileMatch nowTs memory msgs
          changes git proj).feature_lifecycle.getD
          ⟨[], [], [], []⟩).struggling_features.length ≤ 20 ∧
      ((buildRichMemory summarize extractKey fileMatch nowTs memory msgs
          changes git proj).feature_lifecycle.getD
          ⟨[], [], [], []⟩).removed_features.length ≤ 20 ∧
      (buildRichMemory summarize extractKey fileMatch nowTs memory msgs
          changes git proj).technical_decisions.length ≤ 30) ∧
    (∀ (summarize : List Msg → String) (extractKey : String → String)
        (fileMatch : String → Option String) (nowTs : String)
        (memory : RichMemory) (msgs : List Msg)
        (changes : List FeatureChange) (git : GitContext)
        (proj : ProjectContext),
      (buildRichMemory summarize extractKey fileMatch nowTs memory msgs
          changes git proj).technical_decisions =
        pyTail 30 (memory.technical_decisions ++
          newTechDecisions (memory.sessions + 1) msgs)) ∧
    (∀ (summarize : List Msg → String) (extractKey : String → String)
        (fileMatch : String → Option String) (nowTs : String)
        (memory : RichMemory) (msgs : List Msg)
        (changes : List FeatureChange) (git : GitContext)
        (proj : ProjectContext),
      (memory.technical_decisions ++
        newTechDecisions (memory.sessions + 1) msgs).length = 35 →
      (buildRichMemory summarize extractKey fileMatch nowTs memory msgs
          changes git proj).technical_decisions =
        (memory.technical_decisions ++
          newTechDecisions (memory.sessions + 1) msgs).drop 5) ∧
    (∀ (old new : List KeyDecision),
      (mergeKeyDecisions old new).length ≤ 50 ∧
      ((old ++ new).length = 55 →
        mergeKeyDecisions old new = (old ++ new).drop 5)) ∧
    (∀ (nowTs insight : String) (memory : RichMemory), insight ≠ "" →
      (appendInsight nowTs insight memory).ai_insights.length ≤ 20 ∧
      (appendInsight nowTs insight memory).ai_insights =
        pyTail 20 (memory.ai_insights ++
          [⟨nowTs, insight, memory.sessions⟩])) ∧
    (∀ (rollbacks : List String) (memory : RichMemory)
        (fl : FeatureLifecycle), memory.feature_lifecycle = some fl →
      ((applyRollbackRecs rollbacks memory).feature_lifecycle.getD
          ⟨[], [], [], []⟩).struggling_features =
        fl.struggling_features ++
          rollbacks.map (fun f => .aiRollback f memory.sessions)) ∧
    (∀ (summarize : List Msg → String) (extractKey : String → String)
        (fileMatch : String → Option String) (nowTs : String)
        (memory : RichMemory) (msgs : List Msg)
        (changes : List FeatureChange) (git : GitContext)
        (proj : ProjectContext),
      ((buildRichMemory summarize extractKey fileMatch nowTs memory msgs
          changes git proj).feature_lifecycle.getD
          ⟨[], [], [], []⟩).active_features =
        pyTail 20 ((memory.feature_lifecycle.getD
          ⟨[], [], [], []⟩).active_features ++ featureAdds changes) ∧
      ((buildRichMemory summarize extractKey fileMatch nowTs memory msgs
          changes git proj).feature_lifecycle.getD
          ⟨[], [], [], []⟩).completed_features =
        pyTail 20 (memory.feature_lifecycle.getD
          ⟨[], [], [], []⟩).completed_features ∧
      ((buildRichMemory summarize extractKey fileMatch nowTs memory msgs
          changes git proj).feature_lifecycle.getD
          ⟨[], [], [], []⟩).struggling_features =
        pyTail 20 ((memory.feature_lifecycle.getD
          ⟨[], [], [], []⟩).struggling_features ++
          strugglesOf fileMatch (memory.sessions + 1) msgs) ∧
      ((buildRichMemory summarize extractKey fileMatch nowTs memory msgs
          changes git proj).feature_lifecycle.getD
          ⟨[], [], [], []⟩).removed_features =
        pyTail 20 ((memory.feature_lifecycle.getD
          ⟨[], [], [], []⟩).removed_features ++ featureRemovals changes)) ∧
    (∀ (summarize : List Msg → String) (extractKey : String → String)
        (fileMatch : String → Option String) (nowTs : String)
        (memory : RichMemory) (msgs : List Msg)
        (changes : List FeatureChange) (git : GitContext)
        (proj : ProjectContext),
      (((memory.feature_lifecycle.getD
          ⟨[], [], [], []⟩).active_features ++ featureAdds changes).length =
            25 →
        ((buildRichMemory summarize extractKey fileMatch nowTs memory msgs
            changes git proj).feature_lifecycle.getD
            ⟨[], [], [], []⟩).active_features =
          ((memory.feature_lifecycle.getD
            ⟨[], [], [], []⟩).active_features ++ featureAdds changes).drop 5) ∧
      ((memory.feature_lifecycle.getD
          ⟨[], [], [], []⟩).completed_features.length = 25 →
        ((buildRichMemory summarize extractKey fileMatch nowTs memory msgs
            changes git proj).feature_lifecycle.getD
            ⟨[], [], [], []⟩).completed_features =
          (memory.feature_lifecycle.getD
            ⟨[], [], [], []⟩).completed_features.drop 5) ∧
      (((memory.feature_lifecycle.getD
          ⟨[], [], [], []⟩).struggling_features ++
          strugglesOf fileMatch (memory.sessions + 1) msgs).length = 25 →
        ((buildRichMemory summarize extractKey fileMatch nowTs memory msgs
            changes git proj).feature_lifecycle.getD
            ⟨[], [], [], []⟩).struggling_features =
          ((memory.feature_lifecycle.getD
            ⟨[], [], [], []⟩).struggling_features ++
            strugglesOf fileMatch (memory.sessions + 1) msgs).drop 5) ∧
      (((memory.feature_lifecycle.getD
          ⟨[], [], [], []⟩).removed_features ++
          featureRemovals changes).length = 25 →
        ((buildRichMemory summarize extractKey fileMatch nowTs memory msgs
            changes git proj).feature_lifecycle.getD
            ⟨[], [], [], []⟩).removed_features =
          ((memory.feature_lifecycle.getD
            ⟨[], [], [], []⟩).removed_features ++
            featureRemovals changes).drop 5)) := by
  refine ⟨?_, ?_, ?_, ?_, ?_, ?_, ?_, ?_⟩
  · intro summarize extractKey fileMatch nowTs memory msgs changes git proj
    exact ⟨pyTail_length_le _ _, pyTail_length_le _ _, pyTail_length_le _ _,
      pyTail_length_le _ _, pyTail_length_le _ _⟩
  · intro summarize extractKey fileMatch nowTs memory msgs changes git proj
    rfl
  · intro summarize extractKey fileMatch nowTs memory msgs changes git proj h
    show pyTail 30 _ = _
    exact pyTail_eq_drop (by omega)
  · intro old new
    refine ⟨pyTail_length_le _ _, fun h => ?_⟩
    show pyTail 50 _ = _
    exact pyTail_eq_drop (by omega)
  · intro nowTs insight memory h
    unfold appendInsight
    rw [if_pos h]
    exact ⟨pyTail_length_le _ _, rfl⟩
  · intro rollbacks memory fl h
    unfold applyRollbackRecs
    rw [h]
    rfl
  · intro summarize extractKey fileMatch nowTs memory msgs changes git proj
    exact ⟨rfl, rfl, rfl, rfl⟩
  · intro summarize extractKey fileMatch nowTs memory msgs changes git proj
    refine ⟨fun h => ?_, fun h => ?_, fun h => ?_, fun h => ?_⟩ <;>
      · show pyTail 20 _ = _
        exact pyTail_eq_drop (by omega)

def exGit : GitContext := ⟨"main", [], 0, "", "unknown"⟩

def exProj : ProjectContext := ⟨[], [], [], [], true, "unknown"⟩

/-- Example memory whose four lifecycle lists each hold cap + 5
entries. -/
def exMemory25 : RichMemory :=
  ⟨none, 0, "", none, none, none,
   some ⟨List.replicate 25 ⟨"i", "f", "t", 1⟩, List.replicate 25 "c",
     List.replicate 25 (.aiRollback "x" 1), List.replicate 25 ⟨"i", "f", "t"⟩⟩,
   [], [], [], []⟩

theorem memory_bounded_lists_fifo_witness :
    (((buildRichMemory (fun _ => "") (fun s => s) (fun _ => none) "T"
        ⟨none, 0, "", none, none, none, none, [], [], [], []⟩ [] []
        exGit exProj).feature_lifecycle.getD
        ⟨[], [], [], []⟩).active_features.length ≤ 20 ∧
      ((buildRichMemory (fun _ => "") (fun s => s) (fun _ => none) "T"
        ⟨none, 0, "", none, none, none, none, [], [], [], []⟩ [] []
        exGit exProj).feature_lifecycle.getD
        ⟨[], [], [], []⟩).completed_features.length ≤ 20 ∧
      ((buildRichMemory (fun _ => "") (fun s => s) (fun _ => none) "T"
        ⟨none, 0, "", none, none, none, none, [], [], [], []⟩ [] []
        exGit exProj).feature_lifecycle.getD
        ⟨[], [], [], []⟩).struggling_features.length ≤ 20 ∧
      ((buildRichMemory (fun _ => "") (fun s => s) (fun _ => none) "T"
        ⟨none, 0, "", none, none, none, none, [], [], [], []⟩ [] []
        exGit exProj).feature_lifecycle.getD
        ⟨[], [], [], []⟩).removed_features.length ≤ 20 ∧
      (buildRichMemory (fun _ => "") (fun s => s) (fun _ => none) "T"
        ⟨none, 0, "", none, none, none, none, [], [], [], []⟩ [] []
        exGit exProj).technical_decisions.length ≤ 30) ∧
    ((mergeKeyDecisions (List.replicate 30 (KeyDecision.mk "t" [] "s"))
        (List.replicate 25 (KeyDecision.mk "u" [] "v"))).length ≤ 50 ∧
      ((List.replicate 30 (KeyDecision.mk "t" [] "s") ++
          List.replicate 25 (KeyDecision.mk "u" [] "v")).length = 55 →
        mergeKeyDecisions (List.replicate 30 (KeyDecision.mk "t" [] "s"))
            (List.replicate 25 (KeyDecision.mk "u" [] "v")) =
          (List.replicate 30 (KeyDecision.mk "t" [] "s") ++
            List.replicate 25 (KeyDecision.mk "u" [] "v")).drop 5)) ∧
    (appendInsight "T" "i"
        ⟨none, 3, "", none, none, none, none, [], [], [], []⟩).ai_insights =
      pyTail 20 (([] : List Insight) ++ [⟨"T", "i", 3⟩]) ∧
    ((applyRollbackRecs ["x"]
        ⟨none, 3, "", none, none, none, some ⟨[], [], [], []⟩, [], [], [],
          []⟩).feature_lifecycle.getD ⟨[], [], [], []⟩).struggling_features =
      ([] : List StrugglingEntry) ++ ["x"].map (fun f => .aiRollback f 3) ∧
    ((buildRichMemory (fun _ => "") (fun s => s) (fun _ => none) "T"
        exMemory25 [] [] exGit exProj).feature_lifecycle.getD
        ⟨[], [], [], []⟩).active_features =
      ((exMemory25.feature_lifecycle.getD
        ⟨[], [], [], []⟩).active_features ++ featureAdds []).drop 5 ∧
    ((buildRichMemory (fun _ => "") (fun s => s) (fun _ => none) "T"
        exMemory25 [] [] exGit exProj).feature_lifecycle.getD
        ⟨[], [], [], []⟩).completed_features =
      (exMemory25.feature_lifecycle.getD
        ⟨[], [], [], []⟩).completed_features.drop 5 ∧
    ((buildRichMemory (fun _ => "") (fun s => s) (fun _ => none) "T"
        exMemory25 [] [] exGit exProj).feature_lifecycle.getD
        ⟨[], [], [], []⟩).struggling_features =
      ((exMemory25.feature_lifecycle.getD
        ⟨[], [], [], []⟩).struggling_features ++
        strugglesOf (fun _ => none) (exMemory25.sessions + 1) []).drop 5 ∧
    ((buildRichMemory (fun _ => "") (fun s => s) (fun _ => none) "T"
        exMemory25 [] [] exGit exProj).feature_lifecycle.getD
        ⟨[], [], [], []⟩).removed_features =
      ((exMemory25.feature_lifecycle.getD
        ⟨[], [], [], []⟩).removed_features ++ featureRemovals []).drop 5 :=
  ⟨memory_bounded_lists_fifo.1 (fun _ => "") (fun s => s) (fun _ => none) "T"
     ⟨none, 0, "", none, none, none, none, [], [], [], []⟩ [] [] exGit exProj,
   memory_bounded_lists_fifo.2.2.2.1
     (List.replicate 30 (KeyDecision.mk "t" [] "s"))
     (List.replicate 25 (KeyDecision.mk "u" [] "v")),
   (memory_bounded_lists_fifo.2.2.2.2.1 "T" "i"
     ⟨none, 3, "", none, none, none, none, [], [], [], []⟩ (by decide)).2,
   memory_bounded_lists_fifo.2.2.2.2.2.1 ["x"]
     ⟨none, 3, "", none, none, none, some ⟨[], [], [], []⟩, [], [], [], []⟩
     ⟨[], [], [], []⟩ rfl,
   (memory_bounded_lists_fifo.2.2.2.2.2.2.2 (fun _ => "") (fun s => s)
     (fun _ => none) "T" exMemory25 [] [] exGit exProj).1 (by decide),
   (memory_bounded_lists_fifo.2.2.2.2.2.2.2 (fun _ => "") (fun s => s)
     (fun _ => none) "T" exMemory25 [] [] exGit exProj).2.1 (by decide),
   (memory_bounded_lists_fifo.2.2.2.2.2.2.2 (fun _ => "") (fun s => s)
     (fun _ => none) "T" exMemory25 [] [] exGit exProj).2.2.1 (by decide),
   (memory_bounded_lists_fifo.2.2.2.2.2.2.2 (fun _ => "") (fun s => s)
     (fun _ => none) "T" exMemory25 [] [] exGit exProj).2.2.2 (by decide)⟩
